import Mathlib

/-!
# Verification of the address-space core of the `nwind` stack unwinder

This file gives a shallow embedding of `src/nwind/src/address_space.rs`
(the address-space core of the `not-perf` profiler) and proves properties
of it.  Pure functions of the Rust source become Lean functions; the
mutable state of `AddressSpace` is threaded explicitly; machine `u64`
values are modelled as `Nat` (the operations proved about never rely on
wrap-around: every subtraction in the source is guarded by a comparison).

Modules of the repository that are referenced but whose sources are not
part of the crate file under study (`range_map`, `types`, `binary`,
`symbols`, `frame_descriptions`, `unwind_context`, `arch`,
`dwarf_regs`, the demangler) are modelled from the specification's
description of their interfaces; each such definition carries a doc
comment starting with "Modelled from the spec".  Everything else is a
direct translation of `address_space.rs`.

The file is laid out with all definitions first and all theorems after
them.
-/

/-! ## Definitions — basic data model -/

/-- Modelled from the spec: byte order, propagated from the architecture
plug-in. -/
inductive Endianness where
  | LittleEndian
  | BigEndian
deriving DecidableEq

/-- Modelled from the spec: the backing identity triple of a file-backed
memory region (`types.rs`). -/
structure Inode where
  inode : Nat
  dev_major : Nat
  dev_minor : Nat
deriving DecidableEq

/-- An observed memory-map entry (`maps.rs`), exactly the fields used by
`address_space.rs`: half-open range `[start, end)`, permission flags,
file offset of the mapped slice, device/inode identity and path. -/
structure Region where
  start : Nat
  «end» : Nat
  is_read : Bool
  is_write : Bool
  is_executable : Bool
  is_shared : Bool
  file_offset : Nat
  major : Nat
  minor : Nat
  inode : Nat
  name : String
deriving DecidableEq

/-- Modelled from the spec: the Binary Identity, "either the
`{inode, dev-major, dev-minor}` triple (when inode ≠ 0) or the path
(for `[vdso]`)" (`types.rs`). -/
inductive BinaryId where
  | byInode : Inode → BinaryId
  | byName : String → BinaryId
deriving DecidableEq

/-- Modelled from the spec: identity of a region (the `From< &Region >`
conversion used at `let id: BinaryId = (&region).into()`). -/
def Region.binaryId (r : Region) : BinaryId :=
  if r.inode ≠ 0 then BinaryId.byInode ⟨r.inode, r.major, r.minor⟩
  else BinaryId.byName r.name

/-- Modelled from the spec: `BinaryId::to_inode`, used when emitting the
reload delta. -/
def BinaryId.to_inode : BinaryId → Option Inode
  | BinaryId.byInode i => some i
  | BinaryId.byName _ => none

/-- Modelled from the spec: a record from the object's program header —
the declared virtual address, file offset and size of a loadable
segment (`binary.rs`). -/
structure LoadHeader where
  address : Nat
  file_offset : Nat
  size : Nat
deriving DecidableEq

/-- An Address Mapping (`frame_descriptions.rs`): a realised load
header, pairing a declared virtual address with the actual loaded
address and the segment size. -/
structure AddressMapping where
  declared_address : Nat
  actual_address : Nat
  file_offset : Nat
  size : Nat
deriving DecidableEq

/-- Architecture-specific section addresses recorded per binary. -/
structure BinaryAddresses where
  arm_exidx : Option Nat := none
  arm_extab : Option Nat := none
deriving DecidableEq

/-- Modelled from the spec: a symbol table; `get_symbol(relative_addr)`
returns the `(range, name)` of the covering symbol, if any
(`symbols.rs`). -/
structure Symbols where
  symbols : List ((Nat × Nat) × String)
deriving DecidableEq

/-- Modelled from the spec: symbol-table point lookup; ranges are
half-open. -/
def Symbols.get_symbol (s : Symbols) (address : Nat) : Option ((Nat × Nat) × String) :=
  s.symbols.find? (fun e => decide (e.1.1 ≤ address) && decide (address < e.1.2))

/-- Modelled from the spec: the binary-data oracle (`binary.rs`): raw
bytes, load headers and the architecture-specific section ranges. -/
structure BinaryData where
  name : String
  bytes : List Nat
  inode : Option Inode
  load_headers : List LoadHeader
  arm_exidx_range : Option (Nat × Nat)
  arm_extab_range : Option (Nat × Nat)
deriving DecidableEq

/-- Modelled from the spec: the external collaborators of the core that
are consumed through minimal interfaces — symbol-table construction,
CFI parsing and the Itanium demangler.  The core is parametric over the
type `FD` of parsed frame descriptions. -/
structure Externals (FD : Type) where
  load_symbols_from : BinaryData → Symbols
  load_frame_descriptions : BinaryData → Option FD
  demangle : String → Option String

/-! ## Definitions — address translation (`translate_address`, lines 21–27) -/

/-- `translate_address`: find the first mapping whose actual range
contains the address and rebase it into the declared space; identity
fallback otherwise. -/
def translate_address (mappings : List AddressMapping) (address : Nat) : Nat :=
  match mappings.find?
      (fun mapping => decide (address ≥ mapping.actual_address) &&
                      decide (address < mapping.actual_address + mapping.size)) with
  | some mapping => address - mapping.actual_address + mapping.declared_address
  | none => address

/-- The containment test of `translate_address`, as a proposition. -/
def mappingContains (m : AddressMapping) (address : Nat) : Prop :=
  m.actual_address ≤ address ∧ address < m.actual_address + m.size

instance (m : AddressMapping) (address : Nat) : Decidable (mappingContains m address) :=
  inferInstanceAs (Decidable (_ ∧ _))

/-! ## Definitions — the Memory View (`Memory`, lines 169–218) -/

/-- A loaded-object record (`Binary< A >`), parametric over the type
`FD` of parsed frame descriptions. -/
structure Binary (FD : Type) where
  name : String
  virtual_addresses : BinaryAddresses
  load_headers : List LoadHeader
  mappings : List AddressMapping
  data : Option BinaryData
  symbols : List Symbols
  frame_descriptions : Option FD
deriving DecidableEq

/-- A region-map value: the binary occupying the region together with
the observed memory region (`BinaryRegion< A >`). -/
structure BinaryRegion (FD : Type) where
  binary : Binary FD
  memory_region : Region
deriving DecidableEq

/-- Modelled from the spec: `RangeMap::get` — point lookup returning the
covering half-open interval and its value; an empty collection always
misses (`range_map.rs`).  The intervals of a built range map are
disjoint, so taking the first containing entry is the lookup's result
regardless of search strategy. -/
def rangeGet {α : Type} (entries : List ((Nat × Nat) × α)) (address : Nat) :
    Option ((Nat × Nat) × α) :=
  entries.find? (fun e => decide (e.1.1 ≤ address) && decide (address < e.1.2))

/-- The memory view composed for one unwind: the current region map,
the stack snapshot and the virtual address of the snapshot's byte 0. -/
structure Memory (FD : Type) where
  regions : List ((Nat × Nat) × BinaryRegion FD)
  stack_address : Nat
  stack : List Nat
deriving DecidableEq

/-- Little-endian assembly of a byte list into a value
(`byteorder::LittleEndian::read_uN`). -/
def readBytesLE : List Nat → Nat
  | [] => 0
  | b :: rest => b + 256 * readBytesLE rest

/-- Assembly of an exact-width byte slice into a primitive value
(`Primitive::read_from_slice`). -/
def read_from_slice (endianness : Endianness) (slice : List Nat) : Nat :=
  match endianness with
  | Endianness.LittleEndian => readBytesLE slice
  | Endianness.BigEndian => readBytesLE slice.reverse

/-- Modelled from the spec: `BufferReader::get_uN_at_offset` over a
length-bounded byte buffer — a read whose byte span extends past the end
of the buffer returns a miss
(`Primitive::read_from_buffer` through the `BufferReader` trait). -/
def read_from_buffer (size : Nat) (buffer : List Nat) (endianness : Endianness)
    (offset : Nat) : Option Nat :=
  if offset + size ≤ buffer.length then
    some (read_from_slice endianness ((buffer.drop offset).take size))
  else
    none

/-- The observable outcome of a primitive read: a value, a miss
(Rust `None`), or a fault (a Rust panic, e.g. an out-of-bounds slice
index). -/
inductive ReadResult where
  | fault
  | miss
  | value (v : Nat)
deriving DecidableEq

/-- The region-map half of `Memory::get_value_at_address`
(lines 186–195): on a region hit, index the covering binary's backing
bytes at `file_offset + (address - range.start)`; `data()?` turns an
absent binary image into a miss, while the slice expression
`[offset..offset + size_of::<V>()]` *panics* when the span extends past
the end of the backing bytes. -/
def region_read {FD : Type} (size : Nat) (mem : Memory FD) (endianness : Endianness)
    (address : Nat) : ReadResult :=
  match rangeGet mem.regions address with
  | some (range, region) =>
      let offset := region.memory_region.file_offset + (address - range.1)
      match region.binary.data with
      | none => ReadResult.miss
      | some data =>
          if offset + size ≤ data.bytes.length then
            ReadResult.value (read_from_slice endianness ((data.bytes.drop offset).take size))
          else
            ReadResult.fault
  | none => ReadResult.miss

/-- `Memory::get_value_at_address` (lines 177–195): if the address is at
or above `stack_address`, first attempt a stack read at offset
`address - stack_address`; on a stack miss (or an address below the
stack) fall through to the region map. -/
def get_value_at_address {FD : Type} (size : Nat) (mem : Memory FD)
    (endianness : Endianness) (address : Nat) : ReadResult :=
  match (if mem.stack_address ≤ address then
           read_from_buffer size mem.stack endianness (address - mem.stack_address)
         else none) with
  | some v => ReadResult.value v
  | none => region_read size mem endianness address

/-- `Memory::get_u32_at_address`. -/
def get_u32_at_address {FD : Type} (mem : Memory FD) (endianness : Endianness)
    (address : Nat) : ReadResult :=
  get_value_at_address 4 mem endianness address

/-- `Memory::get_u64_at_address`. -/
def get_u64_at_address {FD : Type} (mem : Memory FD) (endianness : Endianness)
    (address : Nat) : ReadResult :=
  get_value_at_address 8 mem endianness address

/-! ## Definitions — reload (`AddressSpace::reload`, lines 366–575)

The Rust `HashMap`s are modelled as association lists (insertion
order), the `HashSet` of old regions as a duplicate-free list; the
loop over the incoming regions becomes a fold over an accumulator that
also carries a ghost log of the regions `try_load` was invoked on. -/

/-- The helper `contains` (lines 276–278): half-open interval test. -/
def contains_range (range : Nat × Nat) (value : Nat) : Bool :=
  decide (range.1 ≤ value) && decide (value < range.2)

/-- `calculate_virtual_addr` (lines 280–288). -/
def calculate_virtual_addr (region : Region) (physical_section_offset : Nat) : Option Nat :=
  let region_range := (region.file_offset, region.file_offset + (region.«end» - region.start))
  if contains_range region_range physical_section_offset then
    some (region.start + physical_section_offset - region.file_offset)
  else
    none

/-- `LoadHandle` (lines 290–328): the mutable handle the loader
callback fills in. -/
structure LoadHandle where
  binary : Option BinaryData
  debug_binary : Option BinaryData
  symbols : List Symbols
  mappings : List LoadHeader
  load_frame_descriptions : Bool
  load_symbols : Bool

/-- `LoadHandle::is_empty` (lines 324–327). -/
def LoadHandle.is_empty (handle : LoadHandle) : Bool :=
  handle.binary.isNone && handle.mappings.isEmpty

/-- The handle as initialized by `reload` before invoking the loader
(lines 432–439). -/
def defaultLoadHandle : LoadHandle := ⟨none, none, [], [], true, true⟩

/-- The per-identity staging entry (the local `struct Data` of `reload`,
lines 369–381). -/
structure StagingData (FD : Type) where
  name : String
  binary_data : Option BinaryData
  addresses : BinaryAddresses
  load_headers : List LoadHeader
  mappings : List AddressMapping
  symbols : List Symbols
  frame_descriptions : Option FD
  regions : List (Region × Bool)
  load_symbols : Bool
  load_frame_descriptions : Bool
  is_old : Bool

/-- The region filter of `reload` (line 400): shared regions, unnamed
regions, and anonymous-inode regions other than `[vdso]` are ignored. -/
def regionFiltered (region : Region) : Bool :=
  region.is_shared || region.name == "" || (region.inode == 0 && region.name != "[vdso]")

/-- Association-list lookup, modelling `HashMap::get`. -/
def lookupKey {α : Type} (l : List (BinaryId × α)) (id : BinaryId) : Option α :=
  match l.find? (fun e => e.1 == id) with
  | some e => some e.2
  | none => none

/-- Association-list membership, modelling `HashMap::contains_key`. -/
def containsKey {α : Type} (l : List (BinaryId × α)) (id : BinaryId) : Bool :=
  (lookupKey l id).isSome

/-- Association-list removal of the first entry with the given key,
modelling `HashMap::remove`. -/
def eraseKey {α : Type} : List (BinaryId × α) → BinaryId → List (BinaryId × α)
  | [], _ => []
  | e :: rest, id => if e.1 == id then rest else eraseKey rest id |> (e :: ·)

/-- Association-list in-place update of the first entry with the given
key, modelling `HashMap::get_mut`. -/
def updateKey {α : Type} : List (BinaryId × α) → BinaryId → (α → α) → List (BinaryId × α)
  | [], _, _ => []
  | e :: rest, id, f => if e.1 == id then (e.1, f e.2) :: rest else e :: updateKey rest id f

/-- The keys of an association list. -/
def mapKeys {α : Type} (l : List (BinaryId × α)) : List BinaryId :=
  l.map Prod.fst

/-- Duplicate-free insertion, modelling `HashSet::insert`. -/
def setInsert (l : List Region) (r : Region) : List Region :=
  if r ∈ l then l else l ++ [r]

/-- Staging a reused binary (lines 408–428): its parsed internals are
moved into a fresh staging entry marked `is_old = true`; the
architecture-specific addresses and the mappings are rebuilt. -/
def stageFromOld {FD : Type} (name : String) (binary : Binary FD) : StagingData FD :=
  { name := name, binary_data := binary.data, addresses := {},
    load_headers := binary.load_headers, mappings := [], symbols := binary.symbols,
    frame_descriptions := binary.frame_descriptions, regions := [],
    load_symbols := false, load_frame_descriptions := false, is_old := true }

/-- Staging a freshly loaded binary (lines 446–462): when the callback
supplied a binary image, its load headers replace whatever mappings the
callback added by hand. -/
def stageFromHandle {FD : Type} (name : String) (handle : LoadHandle) : StagingData FD :=
  let handle_mappings :=
    match handle.binary with
    | some binary_data => binary_data.load_headers
    | none => handle.mappings
  { name := name, binary_data := handle.binary, addresses := {},
    load_headers := handle_mappings, mappings := [], symbols := handle.symbols,
    frame_descriptions := none, regions := [],
    load_symbols := handle.load_symbols,
    load_frame_descriptions := handle.load_frame_descriptions, is_old := false }

/-- Appending an Address Mapping for the region (lines 478–485): the
load header matching the region's file offset, if any, is realised at
the region's start.  (The base-address computation of lines 471–476 is
logged and discarded by the source, so it does not appear here.) -/
def addMapping {FD : Type} (region : Region) (data : StagingData FD) : StagingData FD :=
  match data.load_headers.find? (fun header => header.file_offset == region.file_offset) with
  | some header =>
      { data with mappings := data.mappings ++
          [⟨header.address, region.start, header.file_offset, region.«end» - region.start⟩] }
  | none => data

/-- The `section!` macro instantiated for `.ARM.exidx`
(lines 487–502). -/
def applyExidx {FD : Type} (region : Region) (data : StagingData FD) : StagingData FD :=
  if data.addresses.arm_exidx.isNone then
    match data.binary_data with
    | some binary_data =>
        match binary_data.arm_exidx_range with
        | some section_range =>
            match calculate_virtual_addr region section_range.1 with
            | some addr =>
                { data with addresses := { data.addresses with arm_exidx := some addr } }
            | none => data
        | none => data
    | none => data
  else data

/-- The `section!` macro instantiated for `.ARM.extab`
(lines 487–503). -/
def applyExtab {FD : Type} (region : Region) (data : StagingData FD) : StagingData FD :=
  if data.addresses.arm_extab.isNone then
    match data.binary_data with
    | some binary_data =>
        match binary_data.arm_extab_range with
        | some section_range =>
            match calculate_virtual_addr region section_range.1 with
            | some addr =>
                { data with addresses := { data.addresses with arm_extab := some addr } }
            | none => data
        | none => data
    | none => data
  else data

/-- Recording the region on its staging entry (line 505). -/
def appendRegion {FD : Type} (region : Region) (is_new : Bool) (data : StagingData FD) :
    StagingData FD :=
  { data with regions := data.regions ++ [(region, is_new)] }

/-- The loop accumulator of `reload`'s first phase: the detached old
binary map and old region set being consumed, the staging map and the
`tried_to_load` set being built, plus a ghost log of every region the
loader callback was invoked on. -/
structure ReloadAcc (FD : Type) where
  old_binary_map : List (BinaryId × Binary FD)
  old_regions : List Region
  new_binary_map : List (BinaryId × StagingData FD)
  tried_to_load : List BinaryId
  loader_calls : List Region

/-- The tail of a loop iteration once its identity is staged
(lines 468–505): decide `is_new` by removing the region from the old
region set, then push the mapping, the architecture-specific sections
and the region itself onto the staging entry. -/
def attachRegion {FD : Type} (acc : ReloadAcc FD) (region : Region) (id : BinaryId) :
    ReloadAcc FD :=
  let is_new := !(decide (region ∈ acc.old_regions))
  { acc with
      old_regions := acc.old_regions.erase region,
      new_binary_map := updateKey acc.new_binary_map id
        (fun data =>
          appendRegion region is_new (applyExtab region (applyExidx region (addMapping region data)))) }

/-- One iteration of `reload`'s main loop (lines 399–506). -/
def processRegion {FD : Type} (try_load : Region → LoadHandle → LoadHandle)
    (acc : ReloadAcc FD) (region : Region) : ReloadAcc FD :=
  if regionFiltered region then acc
  else
    let id := region.binaryId
    if containsKey acc.new_binary_map id then
      attachRegion acc region id
    else
      match lookupKey acc.old_binary_map id with
      | some binary =>
          attachRegion
            { acc with
                old_binary_map := eraseKey acc.old_binary_map id,
                new_binary_map :=
                  acc.new_binary_map ++ [(id, stageFromOld region.name binary)] }
            region id
      | none =>
          if id ∈ acc.tried_to_load then acc
          else
            let handle := try_load region defaultLoadHandle
            let acc1 := { acc with
                tried_to_load := acc.tried_to_load ++ [id],
                loader_calls := acc.loader_calls ++ [region] }
            if handle.is_empty then acc1
            else
              attachRegion
                { acc1 with new_binary_map :=
                    acc1.new_binary_map ++ [(id, stageFromHandle region.name handle)] }
                region id

/-- The reload delta (`struct Reloaded`, lines 350–356). -/
structure Reloaded where
  binaries_unmapped : List (Option Inode × String)
  binaries_mapped : List (Option Inode × String × Option BinaryData)
  regions_unmapped : List (Nat × Nat)
  regions_mapped : List Region
deriving DecidableEq

/-- The accumulator of `reload`'s promotion phase (lines 508–561). -/
structure PromoteState (FD : Type) where
  binaries_mapped : List (Option Inode × String × Option BinaryData)
  regions_mapped : List Region
  new_regions : List ((Nat × Nat) × BinaryRegion FD)
  binary_map : List (BinaryId × Binary FD)

/-- Assembling the frozen `Binary` from a staging entry
(lines 514–543): symbols and frame descriptions are loaded lazily when
requested and absent. -/
def finalizeBinary {FD : Type} (ext : Externals FD) (data : StagingData FD) : Binary FD :=
  let symbols :=
    if data.load_symbols then
      (if data.symbols.isEmpty then
        (match data.binary_data with
         | some binary_data => data.symbols ++ [ext.load_symbols_from binary_data]
         | none => data.symbols)
       else data.symbols)
    else data.symbols
  let frame_descriptions :=
    match data.frame_descriptions with
    | some fd => some fd
    | none =>
        if data.load_frame_descriptions then
          match data.binary_data with
          | some binary_data => ext.load_frame_descriptions binary_data
          | none => none
        else none
  { name := data.name, data := data.binary_data, virtual_addresses := data.addresses,
    load_headers := data.load_headers, mappings := data.mappings,
    symbols := symbols, frame_descriptions := frame_descriptions }

/-- Emission of one `(region, is_new)` pair during promotion
(lines 545–558): new regions go to `regions_mapped`, every region
becomes a range-map entry. -/
def promoteRegionStep {FD : Type} (binary : Binary FD) (st : PromoteState FD)
    (rq : Region × Bool) : PromoteState FD :=
  { st with
      regions_mapped := if rq.2 then st.regions_mapped ++ [rq.1] else st.regions_mapped,
      new_regions := st.new_regions ++ [((rq.1.start, rq.1.«end»), ⟨binary, rq.1⟩)] }

/-- Promotion of one staging entry (lines 509–561): emit
`binaries_mapped` for fresh entries, emit each region (new ones also to
`regions_mapped`) and register the binary. -/
def promoteStep {FD : Type} (ext : Externals FD) (st : PromoteState FD)
    (entry : BinaryId × StagingData FD) : PromoteState FD :=
  let id := entry.1
  let data := entry.2
  let st :=
    if data.is_old then st
    else { st with binaries_mapped :=
        st.binaries_mapped ++ [(id.to_inode, data.name, data.binary_data)] }
  let binary := finalizeBinary ext data
  let st := data.regions.foldl (promoteRegionStep binary) st
  { st with binary_map := st.binary_map ++ [(id, binary)] }

/-- All `(region, is_new)` pairs recorded across a staging map, in
entry order. -/
def stagedRegionPairs {FD : Type} (l : List (BinaryId × StagingData FD)) :
    List (Region × Bool) :=
  l.flatMap (fun e => e.2.regions)

/-- A staging map all of whose entries are reused old binaries whose
recorded regions are all carried over (`is_new = false`). -/
def allOldStaging {FD : Type} (l : List (BinaryId × StagingData FD)) : Prop :=
  ∀ e ∈ l, e.2.is_old = true ∧ ∀ q ∈ e.2.regions, q.2 = false

/-- Insertion into a list sorted by range start. -/
def insertByStart {α : Type} (x : (Nat × Nat) × α) :
    List ((Nat × Nat) × α) → List ((Nat × Nat) × α)
  | [] => [x]
  | y :: rest => if x.1.1 ≤ y.1.1 then x :: y :: rest else y :: insertByStart x rest

/-- Modelled from the spec: `RangeMap::from_vec` — consume an unsorted
entry list and sort it by range start (`range_map.rs`; the builder's
disjointness assertion is a property of the inputs, not of the result
value, and is treated as a validity hypothesis where it matters). -/
def rangeMapFromVec {α : Type} (entries : List ((Nat × Nat) × α)) :
    List ((Nat × Nat) × α) :=
  entries.foldr insertByStart []

/-- The mutable state of `AddressSpace< A >` (lines 358–363): its region
map, its binary table and the partial-backtrace flag; `ctx_panic_flag`
mirrors the flag pushed into the unwind context by `unwind`. -/
structure ASState (FD : Type) where
  regions : List ((Nat × Nat) × BinaryRegion FD)
  binary_map : List (BinaryId × Binary FD)
  panic_on_partial_backtrace : Bool
  ctx_panic_flag : Bool

/-- The accumulator `reload` starts from: the detached binary map and
the old regions collected into a set (lines 385–395). -/
def initialReloadAcc {FD : Type} (s : ASState FD) : ReloadAcc FD :=
  { old_binary_map := s.binary_map,
    old_regions := (s.regions.map (fun e => e.2.memory_region)).foldl setInsert [],
    new_binary_map := [], tried_to_load := [], loader_calls := [] }

/-- The full result of a `reload`: the new state, the delta, and the
ghost log of loader invocations. -/
structure ReloadResult (FD : Type) where
  state : ASState FD
  reloaded : Reloaded
  loader_calls : List Region

/-- `AddressSpace::reload` (lines 366–575): one pass over the incoming
regions keyed by Binary Identity, then promotion of the staging map into
the new binary table and region map; everything left in the detached old
maps is reported unmapped.  The source's two `assert_eq!`s (lines 565
and 573) are established as theorems below instead of being executed. -/
def reload {FD : Type} (ext : Externals FD) (try_load : Region → LoadHandle → LoadHandle)
    (s : ASState FD) (regions : List Region) : ReloadResult FD :=
  let acc := regions.foldl (processRegion try_load) (initialReloadAcc s)
  let promoted := acc.new_binary_map.foldl (promoteStep ext) ⟨[], [], [], []⟩
  { state := { regions := rangeMapFromVec promoted.new_regions,
               binary_map := promoted.binary_map,
               panic_on_partial_backtrace := s.panic_on_partial_backtrace,
               ctx_panic_flag := s.ctx_panic_flag },
    reloaded := { binaries_unmapped := acc.old_binary_map.map (fun e => (e.1.to_inode, e.2.name)),
                  binaries_mapped := promoted.binaries_mapped,
                  regions_unmapped := acc.old_regions.map (fun r => (r.start, r.«end»)),
                  regions_mapped := promoted.regions_mapped },
    loader_calls := acc.loader_calls }

/-! ## Definitions — the unwind driver (`AddressSpace::unwind`,
lines 577–607)

The unwind context and the architecture plug-in live in modules that
are not part of the file under study (`unwind_context.rs`, `arch/`), so
they are modelled from the spec as an abstract stepping machine over a
state type `S`: `ctx_start` initializes the register file from the
DWARF register bank, `current_address` / `current_initial_address`
read the current frame, and `ctx_unwind` performs one register-rewrite
step against the memory view, returning `none` when there is no
further frame.  The spec's frame-count guard ("bounded work per frame
plus a frame-count guard bounds total work", §5) appears as explicit
fuel. -/

/-- Modelled from the spec: the DWARF register bank handed to `unwind`
(`dwarf_regs.rs`). -/
structure DwarfRegs where
  regs : List (Nat × Nat)
deriving DecidableEq

/-- `UserFrame` (`types.rs`): one output record of the unwind — the
absolute instruction pointer and the entry address of the containing
function, when known. -/
structure UserFrame where
  address : Nat
  initial_address : Option Nat
deriving DecidableEq

/-- The loop of `AddressSpace::unwind` (lines 597–606): record the
current frame, step, stop when the step reports no further frame (or
the guard runs out). -/
def unwindLoop {FD S : Type} (current_address : S → Nat)
    (current_initial_address : S → Option Nat)
    (ctx_unwind : Memory FD → S → Option S) (memory : Memory FD) :
    Nat → S → List UserFrame
  | 0, u => [⟨current_address u, current_initial_address u⟩]
  | fuel + 1, u =>
      ⟨current_address u, current_initial_address u⟩ ::
        (match ctx_unwind memory u with
         | none => []
         | some u2 =>
             unwindLoop current_address current_initial_address ctx_unwind memory fuel u2)

/-- Iteration of the architecture step, for stating in which order
frames are emitted. -/
def ctxIterate {FD S : Type} (ctx_unwind : Memory FD → S → Option S)
    (memory : Memory FD) : Nat → S → Option S
  | 0, u => some u
  | n + 1, u =>
      match ctx_unwind memory u with
      | none => none
      | some u2 => ctxIterate ctx_unwind memory n u2

/-- `AddressSpace::unwind` (lines 577–607): clear the output and return
if the stack pointer is unknown; otherwise build the memory view from
the region map and the stack snapshot, push the partial-backtrace flag
into the unwind context, initialize the register file from the DWARF
bank and run the loop.  The returned list stands for the state of
`output` at return (its prior contents are discarded by
`output.clear()`). -/
def unwind {FD S : Type}
    (get_stack_pointer : DwarfRegs → Option Nat)
    (ctx_start : DwarfRegs → S)
    (current_address : S → Nat)
    (current_initial_address : S → Option Nat)
    (ctx_unwind : Memory FD → S → Option S)
    (fuel : Nat)
    (s : ASState FD) (dwarf_regs : DwarfRegs) (stack : List Nat)
    (_output : List UserFrame) : ASState FD × List UserFrame :=
  let _cleared : List UserFrame := []
  match get_stack_pointer dwarf_regs with
  | none => (s, [])
  | some stack_address =>
      let memory : Memory FD := ⟨s.regions, stack_address, stack⟩
      let s2 := { s with ctx_panic_flag := s.panic_on_partial_backtrace }
      (s2, unwindLoop current_address current_initial_address ctx_unwind memory fuel
        (ctx_start dwarf_regs))

/-! ## Definitions — symbolication (`decode_symbol_while`,
lines 96–124 and 609–626) -/

/-- `Frame` (lines 330–340). -/
structure Frame where
  absolute_address : Nat
  relative_address : Nat
  name : Option String
  demangled_name : Option String
  file : Option String
  line : Option Nat
  column : Option Nat
  is_inline : Bool
deriving DecidableEq

/-- The symbol-table scan of `decode_symbol_while` (lines 109–121): the
first table that resolves the relative address wins (`break`). -/
def scanSymbols : List Symbols → Nat → Option String
  | [], _ => none
  | symbols :: rest, relative_address =>
      match symbols.get_symbol relative_address with
      | some (_, symbol) => some symbol
      | none => scanSymbols rest relative_address

/-- `Binary::decode_symbol_while` (lines 96–124): translate the
address, scan the symbol tables in registration order, demangle on a
hit, then hand the frame to the callback — whose boolean result is
dropped.  The Rust `FnMut` callback is modelled as a state transformer
returning its boolean. -/
def Binary.decode_symbol_while {FD σ : Type} (ext : Externals FD) (b : Binary FD)
    (address : Nat) (callback : σ → Frame → σ × Bool) (st : σ) : σ :=
  let relative_address := translate_address b.mappings address
  let frame : Frame :=
    ⟨address, relative_address, none, none, none, none, none, false⟩
  let frame :=
    match scanSymbols b.symbols relative_address with
    | some symbol =>
        { frame with name := some symbol, demangled_name := ext.demangle symbol }
    | none => frame
  (callback st frame).1

/-- `AddressSpace::decode_symbol_while` (lines 609–626): delegate to
the covering binary; on a region-map miss the callback is still
invoked once, with an unnamed identity frame. -/
def ASState.decode_symbol_while {FD σ : Type} (ext : Externals FD) (s : ASState FD)
    (address : Nat) (callback : σ → Frame → σ × Bool) (st : σ) : σ :=
  match rangeGet s.regions address with
  | some (_, region) => region.binary.decode_symbol_while ext address callback st
  | none =>
      (callback st ⟨address, address, none, none, none, none, none, false⟩).1

/-- The frame `Binary::decode_symbol_while` hands to its callback,
described through `List.findSome?`. -/
def decodedFrame {FD : Type} (ext : Externals FD) (b : Binary FD) (address : Nat) : Frame :=
  let relative_address := translate_address b.mappings address
  match b.symbols.findSome? (fun symbols => symbols.get_symbol relative_address) with
  | some (_, symbol) =>
      ⟨address, relative_address, some symbol, ext.demangle symbol, none, none, none, false⟩
  | none => ⟨address, relative_address, none, none, none, none, none, false⟩

/-- The frame `AddressSpace::decode_symbol_while` hands to its
callback. -/
def asDecodedFrame {FD : Type} (ext : Externals FD) (s : ASState FD) (address : Nat) :
    Frame :=
  match rangeGet s.regions address with
  | some (_, region) => decodedFrame ext region.binary address
  | none => ⟨address, address, none, none, none, none, none, false⟩

/-! ## Definitions — concrete instances used by witnesses and
counterexamples -/

/-- A region at `[0x1000, 0x2000)`, executable, file offset 0. -/
def cexRegion : Region := ⟨0x1000, 0x2000, true, false, true, false, 0, 0, 0, 1, "b"⟩

/-- A binary whose image was not retained (`data = None`). -/
def cexBinaryNoData : Binary Unit := ⟨"b", {}, [], [], none, [], none⟩

/-- A binary with a single backing byte `0xBB`. -/
def cexBinaryShort : Binary Unit :=
  ⟨"b", {}, [], [], some ⟨"b", [0xBB], none, [], none, none⟩, [], none⟩

/-- A binary whose backing bytes start with `0xBB` and cover a u32. -/
def cexBinaryBB : Binary Unit :=
  ⟨"b", {}, [], [], some ⟨"b", [0xBB, 0xBB, 0xBB, 0xBB, 0xBB], none, [], none, none⟩, [], none⟩

/-- Memory view with no mapped regions and a 4-byte stack at `0x7000`
starting with byte `0xAA`. -/
def cexMemBare : Memory Unit := ⟨[], 0x7000, [0xAA, 0, 0, 0]⟩

/-- Memory view with a 1-byte stack at `0x7000`. -/
def cexMemTinyStack : Memory Unit := ⟨[], 0x7000, [0xAA]⟩

/-- Memory view where a mapped region with backing bytes `0xBB…` covers
the stack address `0x7000` whose snapshot starts with `0xAA`: the spec's
memory-precedence scenario. -/
def cexMemOverlap : Memory Unit :=
  ⟨[((0x7000, 0x8000), ⟨cexBinaryBB, ⟨0x7000, 0x8000, true, false, true, false, 0, 0, 0, 1, "b"⟩⟩)],
    0x7000, [0xAA, 0, 0, 0]⟩

/-- Memory view whose only region is backed by a data-less binary. -/
def cexMemNoData : Memory Unit :=
  ⟨[((0x1000, 0x2000), ⟨cexBinaryNoData, cexRegion⟩)], 0x10000, []⟩

/-- Memory view whose only region is backed by a one-byte binary. -/
def cexMemShort : Memory Unit :=
  ⟨[((0x1000, 0x2000), ⟨cexBinaryShort, cexRegion⟩)], 0x10000, []⟩

/-- A 4096-byte executable, non-shared region with file offset 0 — the
`region` helper of the source's `test_reload`. -/
def testRegion (start : Nat) (inode : Nat) (name : String) : Region :=
  ⟨start, start + 4096, true, false, true, false, 0, 0, 0, inode, name⟩

/-- Trivial external collaborators over `FD = Unit`. -/
def testExternals : Externals Unit :=
  ⟨fun _ => ⟨[]⟩, fun _ => none, fun _ => none⟩

/-- A small binary image. -/
def testBinaryData (name : String) (inode : Nat) : BinaryData :=
  ⟨name, [0, 1, 2, 3], some ⟨inode, 0, 0⟩, [], none, none⟩

/-- The loader callback of the source's `test_reload`: it supplies a
binary for `file_1`, `file_2` and `file_3` and declines everything
else. -/
def testCallback (region : Region) (handle : LoadHandle) : LoadHandle :=
  let handle := { handle with load_frame_descriptions := false, load_symbols := false }
  if region.name == "file_1" || region.name == "file_2" || region.name == "file_3" then
    { handle with binary := some (testBinaryData region.name region.inode) }
  else handle

/-- A fresh address space (`AddressSpace::new`, lines 650–659). -/
def emptyAddressSpace : ASState Unit := ⟨[], [], false, false⟩

/-- A shared region, which the reload filter ignores. -/
def sharedRegion : Region :=
  ⟨0x9000, 0x9000 + 4096, true, false, true, true, 0, 0, 0, 7, "s"⟩

/-! ## Theorems -/

theorem mappingContains_eq_pred (m : AddressMapping) (a : Nat) :
    (decide (a ≥ m.actual_address) && decide (a < m.actual_address + m.size)) = true ↔
      mappingContains m a := by
  simp [mappingContains, ge_iff_le, and_comm]

/-! ### C2: the translation rule -/

/-- **C2.** For every mapping list and every address: if some mapping
contains the address, the result is `addr - actual + declared` computed
from the first such mapping in list order; if no mapping contains the
address, the result is the address itself. -/
theorem translate_address_rule :
    (∀ (ms₁ ms₂ : List AddressMapping) (m : AddressMapping) (a : Nat),
        mappingContains m a →
        (∀ m' ∈ ms₁, ¬ mappingContains m' a) →
        translate_address (ms₁ ++ m :: ms₂) a = a - m.actual_address + m.declared_address) ∧
    (∀ (ms : List AddressMapping) (a : Nat),
        (∀ m ∈ ms, ¬ mappingContains m a) →
        translate_address ms a = a) := by
  constructor
  · intro ms₁ ms₂ m a hm hprev
    induction ms₁ with
    | nil =>
        simp only [List.nil_append, translate_address, List.find?_cons,
          (mappingContains_eq_pred m a).mpr hm]
    | cons m' t ih =>
        have h' : (decide (a ≥ m'.actual_address) && decide (a < m'.actual_address + m'.size)) = false := by
          rw [Bool.eq_false_iff]
          intro hc
          exact hprev m' (List.mem_cons_self m' t) ((mappingContains_eq_pred m' a).mp hc)
        have ih' := ih (fun x hx => hprev x (List.mem_cons_of_mem m' hx))
        simpa only [List.cons_append, translate_address, List.find?_cons, h'] using ih'
  · intro ms a h
    have : ms.find? (fun mapping => decide (a ≥ mapping.actual_address) &&
        decide (a < mapping.actual_address + mapping.size)) = none := by
      rw [List.find?_eq_none]
      intro m hm hc
      exact h m hm ((mappingContains_eq_pred m a).mp hc)
    simp [translate_address, this]

/-- Witness for C2: a covered address uses the first covering mapping,
an uncovered one is returned unchanged. -/
theorem translate_address_rule_witness :
    translate_address ([⟨0x100, 0x5000, 0, 0x100⟩] ++ ⟨0x200, 0x5800, 0, 0x1000⟩ :: []) 0x5900 =
      0x5900 - 0x5800 + 0x200 ∧
    translate_address [⟨0x100, 0x5000, 0, 0x100⟩] 0x9000 = 0x9000 := by
  constructor
  · exact translate_address_rule.1 [⟨0x100, 0x5000, 0, 0x100⟩] [] ⟨0x200, 0x5800, 0, 0x1000⟩
      0x5900 (by decide) (by decide)
  · exact translate_address_rule.2 [⟨0x100, 0x5000, 0, 0x100⟩] 0x9000 (by decide)

/-! ### C4: translation is *not* idempotent in general -/

/-- Counterexample for C4: with the single mapping
`{declared = 1, actual = 0, size = 2}`, translating address 0 gives 1,
and translating 1 gives 2; translating a translated address does not
equal the translated address. -/
theorem translate_address_not_idempotent :
    translate_address [⟨1, 0, 0, 2⟩] (translate_address [⟨1, 0, 0, 2⟩] 0) ≠
      translate_address [⟨1, 0, 0, 2⟩] 0 := by decide

/-- **C4 (amended).** Translation is idempotent whenever the translated
address is not itself contained in any mapping's actual range (in
particular, for every address that no mapping contains).  In general a
second translation can move the address again, as the counterexample's
mapping — whose declared range overlaps its own actual range — shows. -/
theorem translate_address_idempotent_of_translated_uncovered
    (ms : List AddressMapping) (a : Nat)
    (h : ∀ m ∈ ms, ¬ mappingContains m (translate_address ms a)) :
    translate_address ms (translate_address ms a) = translate_address ms a := by
  generalize hb : translate_address ms a = b at h ⊢
  have hnone : ms.find? (fun mapping => decide (b ≥ mapping.actual_address) &&
      decide (b < mapping.actual_address + mapping.size)) = none := by
    rw [List.find?_eq_none]
    intro m hm hc
    exact h m hm ((mappingContains_eq_pred m b).mp hc)
  unfold translate_address
  rw [hnone]

/-- Witness for the amended C4. -/
theorem translate_address_idempotent_witness :
    translate_address [⟨0x100, 0x5000, 0, 0x1000⟩]
        (translate_address [⟨0x100, 0x5000, 0, 0x1000⟩] 0x5200) =
      translate_address [⟨0x100, 0x5000, 0, 0x1000⟩] 0x5200 :=
  translate_address_idempotent_of_translated_uncovered
    [⟨0x100, 0x5000, 0, 0x1000⟩] 0x5200 (by decide)

/-! ### C1: stack reads take precedence over the region map -/

theorem get_value_stack_hit {FD : Type} (size : Nat) (mem : Memory FD)
    (e : Endianness) (a : Nat)
    (h1 : mem.stack_address ≤ a)
    (h2 : a - mem.stack_address + size ≤ mem.stack.length) :
    get_value_at_address size mem e a =
      ReadResult.value (read_from_slice e
        ((mem.stack.drop (a - mem.stack_address)).take size)) := by
  simp [get_value_at_address, read_from_buffer, h1, h2]

/-- **C1.** A primitive read at an address that lands fully inside the
stack snapshot is served from the snapshot's bytes, whatever the region
map holds; the region map is consulted exactly when the address is below
`stack_address` or the stack read misses. -/
theorem stack_read_precedence {FD : Type} (mem : Memory FD) (e : Endianness) (a : Nat) :
    (mem.stack_address ≤ a → a - mem.stack_address + 4 ≤ mem.stack.length →
      get_u32_at_address mem e a =
        ReadResult.value (read_from_slice e
          ((mem.stack.drop (a - mem.stack_address)).take 4))) ∧
    (mem.stack_address ≤ a → a - mem.stack_address + 8 ≤ mem.stack.length →
      get_u64_at_address mem e a =
        ReadResult.value (read_from_slice e
          ((mem.stack.drop (a - mem.stack_address)).take 8))) ∧
    (∀ size : Nat, a < mem.stack_address ∨
        read_from_buffer size mem.stack e (a - mem.stack_address) = none →
      get_value_at_address size mem e a = region_read size mem e a) := by
  refine ⟨fun h1 h2 => get_value_stack_hit 4 mem e a h1 h2,
          fun h1 h2 => get_value_stack_hit 8 mem e a h1 h2,
          fun size h => ?_⟩
  rcases h with h | h
  · simp [get_value_at_address, Nat.not_le.mpr h]
  · by_cases hle : mem.stack_address ≤ a <;> simp [get_value_at_address, hle, h]

/-- Witness for C1: the spec's memory-precedence scenario — the stack
snapshot starts at `0x7000` with first byte `0xAA`, while a mapped
region also covers `0x7000` with backing byte `0xBB` there; a u32 read
at `0x7000` yields the stack's bytes, and when the address lies below
the stack the region map is consulted. -/
theorem stack_read_precedence_witness :
    get_u32_at_address cexMemOverlap Endianness.LittleEndian 0x7000 =
      ReadResult.value 0xAA ∧
    get_value_at_address 4 cexMemBare Endianness.LittleEndian 0x6000 =
      region_read 4 cexMemBare Endianness.LittleEndian 0x6000 := by
  constructor
  · have h := (stack_read_precedence cexMemOverlap Endianness.LittleEndian 0x7000).1
      (by decide) (by decide)
    rw [h]; decide
  · exact (stack_read_precedence cexMemBare Endianness.LittleEndian 0x6000).2.2
      4 (Or.inl (by decide))

/-! ### C3: behaviour of reads at source boundaries -/

/-- Counterexample for C3 as stated: a region-map read whose byte span
extends past the end of the covering binary's backing bytes *faults*
(the Rust code indexes the slice out of bounds and panics) instead of
returning a miss.  Here the binary backing `[0x1000, 0x2000)` has a
single backing byte, and a 4-byte read at `0x1000` is attempted. -/
theorem region_read_past_end_faults :
    get_u32_at_address cexMemShort Endianness.LittleEndian 0x1000 = ReadResult.fault ∧
    get_u32_at_address cexMemShort Endianness.LittleEndian 0x1000 ≠ ReadResult.miss := by
  constructor <;> decide

/-- **C3 (amended).** A stack read past the end of the snapshot returns
a miss and falls through to the region map; a region-map read misses
when no region covers the address or when the covering binary has no
backing bytes; but a region-map read whose byte span extends past the
end of the covering binary's backing byte buffer faults (out-of-bounds
slice index) instead of returning a miss. -/
theorem memory_read_boundaries {FD : Type} (size : Nat) (mem : Memory FD)
    (e : Endianness) (a : Nat) :
    (mem.stack_address ≤ a → mem.stack.length < a - mem.stack_address + size →
      get_value_at_address size mem e a = region_read size mem e a) ∧
    (rangeGet mem.regions a = none → region_read size mem e a = ReadResult.miss) ∧
    (∀ range (region : BinaryRegion FD),
      rangeGet mem.regions a = some (range, region) →
      region.binary.data = none →
      region_read size mem e a = ReadResult.miss) ∧
    (∀ range (region : BinaryRegion FD) (data : BinaryData),
      rangeGet mem.regions a = some (range, region) →
      region.binary.data = some data →
      data.bytes.length <
        region.memory_region.file_offset + (a - range.1) + size →
      region_read size mem e a = ReadResult.fault) := by
  refine ⟨fun h1 h2 => ?_, fun h => ?_, fun range region hr hd => ?_,
          fun range region data hr hd hlen => ?_⟩
  · have : read_from_buffer size mem.stack e (a - mem.stack_address) = none := by
      simp [read_from_buffer, Nat.not_le.mpr h2]
    simp [get_value_at_address, h1, this]
  · simp [region_read, h]
  · simp [region_read, hr, hd]
  · simp [region_read, hr, hd, Nat.not_le.mpr hlen]

/-- Witness for the amended C3: on a one-byte binary a straddling
4-byte read faults, an uncovered address misses, a data-less binary
misses, and a stack read past the snapshot's end falls through. -/
theorem memory_read_boundaries_witness :
    get_value_at_address 4 cexMemTinyStack Endianness.LittleEndian 0x7000 =
      region_read 4 cexMemTinyStack Endianness.LittleEndian 0x7000 ∧
    region_read 4 cexMemTinyStack Endianness.LittleEndian 0x100 = ReadResult.miss ∧
    region_read 4 cexMemNoData Endianness.LittleEndian 0x1000 = ReadResult.miss ∧
    region_read 4 cexMemShort Endianness.LittleEndian 0x1000 = ReadResult.fault := by
  refine ⟨(memory_read_boundaries 4 cexMemTinyStack Endianness.LittleEndian 0x7000).1
            (by decide) (by decide),
          (memory_read_boundaries 4 cexMemTinyStack Endianness.LittleEndian 0x100).2.1
            (by decide),
          (memory_read_boundaries 4 cexMemNoData Endianness.LittleEndian 0x1000).2.2.1
            (0x1000, 0x2000) ⟨cexBinaryNoData, cexRegion⟩ (by decide) rfl,
          (memory_read_boundaries 4 cexMemShort Endianness.LittleEndian 0x1000).2.2.2
            (0x1000, 0x2000) ⟨cexBinaryShort, cexRegion⟩ ⟨"b", [0xBB], none, [], none, none⟩
            (by decide) rfl (by decide)⟩

/-! ### Association-list and accumulator lemmas -/

theorem lookupKey_isSome_iff {α : Type} (l : List (BinaryId × α)) (id : BinaryId) :
    (lookupKey l id).isSome = true ↔ id ∈ mapKeys l := by
  induction l with
  | nil => simp [lookupKey, mapKeys]
  | cons e rest ih =>
      by_cases h : e.1 = id
      · simp [lookupKey, mapKeys, List.find?_cons, h]
      · have : (e.1 == id) = false := by simpa using h
        simp only [lookupKey, List.find?_cons, this, mapKeys, List.map_cons, List.mem_cons]
        rw [show (match List.find? (fun e => e.1 == id) rest with
            | some e => some e.2 | none => none) = lookupKey rest id from rfl]
        constructor
        · intro hs; exact Or.inr (ih.mp hs)
        · rintro (hh | hh)
          · exact absurd hh.symm h
          · exact ih.mpr hh

theorem containsKey_iff {α : Type} (l : List (BinaryId × α)) (id : BinaryId) :
    containsKey l id = true ↔ id ∈ mapKeys l := by
  simpa [containsKey] using lookupKey_isSome_iff l id

theorem lookupKey_eq_none_iff {α : Type} (l : List (BinaryId × α)) (id : BinaryId) :
    lookupKey l id = none ↔ id ∉ mapKeys l := by
  rw [← lookupKey_isSome_iff]
  cases lookupKey l id <;> simp

theorem mapKeys_updateKey {α : Type} (l : List (BinaryId × α)) (id : BinaryId) (f : α → α) :
    mapKeys (updateKey l id f) = mapKeys l := by
  induction l with
  | nil => rfl
  | cons e rest ih =>
      by_cases h : (e.1 == id) = true
      · simp [updateKey, mapKeys, h]
      · have h' : (e.1 == id) = false := by simpa using h
        simp only [updateKey, h', Bool.false_eq_true, if_false, mapKeys, List.map_cons,
          List.cons.injEq, true_and]
        exact ih

theorem mapKeys_append {α : Type} (l₁ l₂ : List (BinaryId × α)) :
    mapKeys (l₁ ++ l₂) = mapKeys l₁ ++ mapKeys l₂ := by
  simp [mapKeys]

theorem mapKeys_cons {α : Type} (e : BinaryId × α) (rest : List (BinaryId × α)) :
    mapKeys (e :: rest) = e.1 :: mapKeys rest := rfl

theorem attachRegion_old_binary_map {FD : Type} (acc : ReloadAcc FD) (r : Region) (id : BinaryId) :
    (attachRegion acc r id).old_binary_map = acc.old_binary_map := rfl

theorem attachRegion_tried {FD : Type} (acc : ReloadAcc FD) (r : Region) (id : BinaryId) :
    (attachRegion acc r id).tried_to_load = acc.tried_to_load := rfl

theorem attachRegion_loader_calls {FD : Type} (acc : ReloadAcc FD) (r : Region) (id : BinaryId) :
    (attachRegion acc r id).loader_calls = acc.loader_calls := rfl

theorem attachRegion_old_regions {FD : Type} (acc : ReloadAcc FD) (r : Region) (id : BinaryId) :
    (attachRegion acc r id).old_regions = acc.old_regions.erase r := rfl

theorem attachRegion_keys {FD : Type} (acc : ReloadAcc FD) (r : Region) (id : BinaryId) :
    mapKeys (attachRegion acc r id).new_binary_map = mapKeys acc.new_binary_map :=
  mapKeys_updateKey _ _ _

/-! ### Branch lemmas for `processRegion` -/

theorem processRegion_filtered {FD : Type} (cb : Region → LoadHandle → LoadHandle)
    (acc : ReloadAcc FD) (r : Region) (h : regionFiltered r = true) :
    processRegion cb acc r = acc := by
  simp [processRegion, h]

theorem processRegion_staged {FD : Type} (cb : Region → LoadHandle → LoadHandle)
    (acc : ReloadAcc FD) (r : Region)
    (h1 : regionFiltered r = false)
    (h2 : containsKey acc.new_binary_map r.binaryId = true) :
    processRegion cb acc r = attachRegion acc r r.binaryId := by
  simp [processRegion, h1, h2]

theorem processRegion_reuse {FD : Type} (cb : Region → LoadHandle → LoadHandle)
    (acc : ReloadAcc FD) (r : Region) (binary : Binary FD)
    (h1 : regionFiltered r = false)
    (h2 : containsKey acc.new_binary_map r.binaryId = false)
    (h3 : lookupKey acc.old_binary_map r.binaryId = some binary) :
    processRegion cb acc r =
      attachRegion
        { acc with
            old_binary_map := eraseKey acc.old_binary_map r.binaryId,
            new_binary_map :=
              acc.new_binary_map ++ [(r.binaryId, stageFromOld r.name binary)] }
        r r.binaryId := by
  simp [processRegion, h1, h2, h3]

theorem processRegion_tried {FD : Type} (cb : Region → LoadHandle → LoadHandle)
    (acc : ReloadAcc FD) (r : Region)
    (h1 : regionFiltered r = false)
    (h2 : containsKey acc.new_binary_map r.binaryId = false)
    (h3 : lookupKey acc.old_binary_map r.binaryId = none)
    (h4 : r.binaryId ∈ acc.tried_to_load) :
    processRegion cb acc r = acc := by
  simp [processRegion, h1, h2, h3, h4]

theorem processRegion_declined {FD : Type} (cb : Region → LoadHandle → LoadHandle)
    (acc : ReloadAcc FD) (r : Region)
    (h1 : regionFiltered r = false)
    (h2 : containsKey acc.new_binary_map r.binaryId = false)
    (h3 : lookupKey acc.old_binary_map r.binaryId = none)
    (h4 : r.binaryId ∉ acc.tried_to_load)
    (h5 : (cb r defaultLoadHandle).is_empty = true) :
    processRegion cb acc r =
      { acc with
          tried_to_load := acc.tried_to_load ++ [r.binaryId],
          loader_calls := acc.loader_calls ++ [r] } := by
  simp [processRegion, h1, h2, h3, h4, h5]

theorem processRegion_fresh {FD : Type} (cb : Region → LoadHandle → LoadHandle)
    (acc : ReloadAcc FD) (r : Region)
    (h1 : regionFiltered r = false)
    (h2 : containsKey acc.new_binary_map r.binaryId = false)
    (h3 : lookupKey acc.old_binary_map r.binaryId = none)
    (h4 : r.binaryId ∉ acc.tried_to_load)
    (h5 : (cb r defaultLoadHandle).is_empty = false) :
    processRegion cb acc r =
      attachRegion
        { acc with
            tried_to_load := acc.tried_to_load ++ [r.binaryId],
            loader_calls := acc.loader_calls ++ [r],
            new_binary_map :=
              acc.new_binary_map ++
                [(r.binaryId, stageFromHandle r.name (cb r defaultLoadHandle))] }
        r r.binaryId := by
  simp [processRegion, h1, h2, h3, h4, h5]

/-! ### C8: filtered regions are ignored entirely -/

/-- **C8.** A region that is shared, unnamed, or anonymous (inode 0 and
not `[vdso]`) contributes nothing to a reload: the loop iteration
processing it is the identity on the whole accumulator (so no staging
entry, no address mapping, no delta contribution, no `tried_to_load`
entry and no loader invocation), and deleting such a region from the
incoming list leaves the entire reload result unchanged. -/
theorem filtered_region_ignored {FD : Type} (try_load : Region → LoadHandle → LoadHandle)
    (acc : ReloadAcc FD) (r : Region) (h : regionFiltered r = true) :
    processRegion try_load acc r = acc ∧
    ∀ (ext : Externals FD) (s : ASState FD) (rs₁ rs₂ : List Region),
      reload ext try_load s (rs₁ ++ r :: rs₂) = reload ext try_load s (rs₁ ++ rs₂) := by
  refine ⟨processRegion_filtered try_load acc r h, fun ext s rs₁ rs₂ => ?_⟩
  have hfold : ∀ acc' : ReloadAcc FD,
      (rs₁ ++ r :: rs₂).foldl (processRegion try_load) acc' =
        (rs₁ ++ rs₂).foldl (processRegion try_load) acc' := by
    intro acc'
    rw [List.foldl_append, List.foldl_append, List.foldl_cons,
      processRegion_filtered try_load _ r h]
  simp only [reload, hfold]

/-- Witness for C8: a shared region is skipped by the loop and deleting
it from the incoming list does not change the reload result. -/
theorem filtered_region_ignored_witness :
    processRegion testCallback (initialReloadAcc emptyAddressSpace) sharedRegion =
      initialReloadAcc emptyAddressSpace ∧
    reload testExternals testCallback emptyAddressSpace
        ([testRegion 0x1000 1 "file_1"] ++ sharedRegion :: [testRegion 0x2000 2 "file_2"]) =
      reload testExternals testCallback emptyAddressSpace
        ([testRegion 0x1000 1 "file_1"] ++ [testRegion 0x2000 2 "file_2"]) := by
  have h := filtered_region_ignored testCallback (initialReloadAcc emptyAddressSpace)
    sharedRegion (by decide)
  exact ⟨h.1, h.2 testExternals emptyAddressSpace
    [testRegion 0x1000 1 "file_1"] [testRegion 0x2000 2 "file_2"]⟩

/-! ### C9: the loader is invoked at most once per identity -/

/-- The shape of one loop iteration as far as the loader log and the
`tried_to_load` set are concerned: either both are untouched, or — only
when the region's identity was not yet tried — the identity is recorded
and the region appended to the log. -/
theorem processRegion_log_shape {FD : Type} (cb : Region → LoadHandle → LoadHandle)
    (acc : ReloadAcc FD) (r : Region) :
    ((processRegion cb acc r).loader_calls = acc.loader_calls ∧
      (processRegion cb acc r).tried_to_load = acc.tried_to_load) ∨
    (r.binaryId ∉ acc.tried_to_load ∧
      (processRegion cb acc r).loader_calls = acc.loader_calls ++ [r] ∧
      (processRegion cb acc r).tried_to_load = acc.tried_to_load ++ [r.binaryId]) := by
  by_cases h1 : regionFiltered r = true
  · rw [processRegion_filtered cb acc r h1]; exact Or.inl ⟨rfl, rfl⟩
  · rw [Bool.not_eq_true] at h1
    by_cases h2 : containsKey acc.new_binary_map r.binaryId = true
    · rw [processRegion_staged cb acc r h1 h2]; exact Or.inl ⟨rfl, rfl⟩
    · rw [Bool.not_eq_true] at h2
      cases h3 : lookupKey acc.old_binary_map r.binaryId with
      | some binary => rw [processRegion_reuse cb acc r binary h1 h2 h3]; exact Or.inl ⟨rfl, rfl⟩
      | none =>
          by_cases h4 : r.binaryId ∈ acc.tried_to_load
          · rw [processRegion_tried cb acc r h1 h2 h3 h4]; exact Or.inl ⟨rfl, rfl⟩
          · cases h5 : (cb r defaultLoadHandle).is_empty with
            | true =>
                rw [processRegion_declined cb acc r h1 h2 h3 h4 h5]
                exact Or.inr ⟨h4, rfl, rfl⟩
            | false =>
                rw [processRegion_fresh cb acc r h1 h2 h3 h4 h5]
                exact Or.inr ⟨h4, rfl, rfl⟩

/-- Invariant carried along the reload loop: per identity, the loader
log has at most one entry, and a logged identity is in `tried_to_load`. -/
theorem loader_log_invariant {FD : Type} (cb : Region → LoadHandle → LoadHandle)
    (rs : List Region) (acc : ReloadAcc FD) (id : BinaryId)
    (h1 : (acc.loader_calls.filter (fun r => r.binaryId == id)).length ≤ 1)
    (h2 : 1 ≤ (acc.loader_calls.filter (fun r => r.binaryId == id)).length →
      id ∈ acc.tried_to_load) :
    ((rs.foldl (processRegion cb) acc).loader_calls.filter
        (fun r => r.binaryId == id)).length ≤ 1 ∧
    (1 ≤ ((rs.foldl (processRegion cb) acc).loader_calls.filter
        (fun r => r.binaryId == id)).length →
      id ∈ (rs.foldl (processRegion cb) acc).tried_to_load) := by
  induction rs generalizing acc with
  | nil => exact ⟨h1, h2⟩
  | cons r rest ih =>
      rw [List.foldl_cons]
      rcases processRegion_log_shape cb acc r with ⟨hl, ht⟩ | ⟨hnt, hl, ht⟩
      · exact ih (processRegion cb acc r) (by rw [hl]; exact h1) (by rw [hl, ht]; exact h2)
      · by_cases hid : r.binaryId = id
        · subst hid
          have hcount : (acc.loader_calls.filter (fun q => q.binaryId == r.binaryId)).length = 0 := by
            by_contra hne
            exact hnt (h2 (Nat.one_le_iff_ne_zero.mpr hne))
          refine ih (processRegion cb acc r) ?_ ?_
          · rw [hl, List.filter_append, List.length_append, hcount]
            simp
          · intro _
            rw [ht]
            exact List.mem_append_right _ (List.mem_singleton.mpr rfl)
        · have hne : (r.binaryId == id) = false := by simpa using hid
          have hfl : (processRegion cb acc r).loader_calls.filter (fun q => q.binaryId == id) =
              acc.loader_calls.filter (fun q => q.binaryId == id) := by
            rw [hl, List.filter_append]
            simp [hne]
          refine ih (processRegion cb acc r) (by rw [hfl]; exact h1) ?_
          · intro hc
            rw [ht]
            exact List.mem_append_left _ (h2 (by rw [← hfl]; exact hc))

/-- **C9.** Within a single reload the loader callback is invoked at
most once per Binary Identity; when the callback leaves the handle
empty, the region only marks its identity as tried (and is logged), the
staging map, the old maps and the delta-relevant state being untouched;
and a later region whose identity was already tried (and not staged) is
skipped without re-invoking the loader — the iteration is a no-op. -/
theorem loader_invoked_once {FD : Type} (try_load : Region → LoadHandle → LoadHandle) :
    (∀ (ext : Externals FD) (s : ASState FD) (rs : List Region) (id : BinaryId),
      ((reload ext try_load s rs).loader_calls.filter
          (fun r => r.binaryId == id)).length ≤ 1) ∧
    (∀ (acc : ReloadAcc FD) (r : Region),
      regionFiltered r = false →
      containsKey acc.new_binary_map r.binaryId = false →
      lookupKey acc.old_binary_map r.binaryId = none →
      r.binaryId ∉ acc.tried_to_load →
      (try_load r defaultLoadHandle).is_empty = true →
      processRegion try_load acc r =
        { acc with
            tried_to_load := acc.tried_to_load ++ [r.binaryId],
            loader_calls := acc.loader_calls ++ [r] }) ∧
    (∀ (acc : ReloadAcc FD) (r : Region),
      regionFiltered r = false →
      containsKey acc.new_binary_map r.binaryId = false →
      lookupKey acc.old_binary_map r.binaryId = none →
      r.binaryId ∈ acc.tried_to_load →
      processRegion try_load acc r = acc) := by
  refine ⟨fun ext s rs id => ?_,
          fun acc r h1 h2 h3 h4 h5 => processRegion_declined try_load acc r h1 h2 h3 h4 h5,
          fun acc r h1 h2 h3 h4 => processRegion_tried try_load acc r h1 h2 h3 h4⟩
  have h := loader_log_invariant try_load rs (initialReloadAcc s) id
    (by simp [initialReloadAcc]) (by simp [initialReloadAcc])
  exact h.1

/-- Witness for C9: two regions of the same identity where the loader
declines produce at most one loader call; a declining first occurrence
only extends `tried_to_load` and the log; a second occurrence of a tried
identity is a no-op. -/
theorem loader_invoked_once_witness :
    ((reload testExternals testCallback emptyAddressSpace
        [testRegion 0x5000 5 "declined", testRegion 0x6000 5 "declined"]).loader_calls.filter
          (fun r => r.binaryId == (testRegion 0x5000 5 "declined").binaryId)).length ≤ 1 ∧
    processRegion testCallback (initialReloadAcc emptyAddressSpace)
        (testRegion 0x5000 5 "declined") =
      { initialReloadAcc emptyAddressSpace with
          tried_to_load := (initialReloadAcc emptyAddressSpace).tried_to_load ++
            [(testRegion 0x5000 5 "declined").binaryId],
          loader_calls := (initialReloadAcc emptyAddressSpace).loader_calls ++
            [testRegion 0x5000 5 "declined"] } ∧
    processRegion testCallback
        { initialReloadAcc emptyAddressSpace with
            tried_to_load := [(testRegion 0x6000 5 "declined").binaryId] }
        (testRegion 0x6000 5 "declined") =
      { initialReloadAcc emptyAddressSpace with
          tried_to_load := [(testRegion 0x6000 5 "declined").binaryId] } := by
  refine ⟨(loader_invoked_once testCallback).1 testExternals emptyAddressSpace
            [testRegion 0x5000 5 "declined", testRegion 0x6000 5 "declined"]
            (testRegion 0x5000 5 "declined").binaryId,
          (loader_invoked_once testCallback).2.1 (initialReloadAcc emptyAddressSpace)
            (testRegion 0x5000 5 "declined") (by decide) (by decide) (by decide)
            (by decide) (by decide),
          (loader_invoked_once testCallback).2.2
            { initialReloadAcc emptyAddressSpace with
                tried_to_load := [(testRegion 0x6000 5 "declined").binaryId] }
            (testRegion 0x6000 5 "declined") (by decide) (by decide) (by decide)
            (by decide)⟩

/-! ### Bookkeeping lemmas for the staged region pairs -/

theorem stagedRegionPairs_append {FD : Type} (l₁ l₂ : List (BinaryId × StagingData FD)) :
    stagedRegionPairs (l₁ ++ l₂) = stagedRegionPairs l₁ ++ stagedRegionPairs l₂ := by
  simp [stagedRegionPairs]

theorem addMapping_regions {FD : Type} (r : Region) (d : StagingData FD) :
    (addMapping r d).regions = d.regions := by
  unfold addMapping
  split <;> rfl

theorem applyExidx_regions {FD : Type} (r : Region) (d : StagingData FD) :
    (applyExidx r d).regions = d.regions := by
  unfold applyExidx
  split <;> try rfl
  split <;> try rfl
  split <;> try rfl
  split <;> rfl

theorem applyExtab_regions {FD : Type} (r : Region) (d : StagingData FD) :
    (applyExtab r d).regions = d.regions := by
  unfold applyExtab
  split <;> try rfl
  split <;> try rfl
  split <;> try rfl
  split <;> rfl

theorem addMapping_is_old {FD : Type} (r : Region) (d : StagingData FD) :
    (addMapping r d).is_old = d.is_old := by
  unfold addMapping
  split <;> rfl

theorem applyExidx_is_old {FD : Type} (r : Region) (d : StagingData FD) :
    (applyExidx r d).is_old = d.is_old := by
  unfold applyExidx
  split <;> try rfl
  split <;> try rfl
  split <;> try rfl
  split <;> rfl

theorem applyExtab_is_old {FD : Type} (r : Region) (d : StagingData FD) :
    (applyExtab r d).is_old = d.is_old := by
  unfold applyExtab
  split <;> try rfl
  split <;> try rfl
  split <;> try rfl
  split <;> rfl

/-- The composite update applied by `attachRegion` appends exactly one
`(region, is_new)` pair to the entry's region list. -/
theorem attachUpdate_regions {FD : Type} (r : Region) (b : Bool) (d : StagingData FD) :
    (appendRegion r b (applyExtab r (applyExidx r (addMapping r d)))).regions =
      d.regions ++ [(r, b)] := by
  simp [appendRegion, applyExtab_regions, applyExidx_regions, addMapping_regions]

theorem attachUpdate_is_old {FD : Type} (r : Region) (b : Bool) (d : StagingData FD) :
    (appendRegion r b (applyExtab r (applyExidx r (addMapping r d)))).is_old = d.is_old := by
  simp [appendRegion, applyExtab_is_old, applyExidx_is_old, addMapping_is_old]

theorem stagedRegionPairs_updateKey {FD : Type} (l : List (BinaryId × StagingData FD))
    (id : BinaryId) (f : StagingData FD → StagingData FD) (r : Region) (b : Bool)
    (hf : ∀ d, (f d).regions = d.regions ++ [(r, b)])
    (hid : id ∈ mapKeys l) :
    (stagedRegionPairs (updateKey l id f)).Perm (stagedRegionPairs l ++ [(r, b)]) := by
  induction l with
  | nil => simp [mapKeys] at hid
  | cons e rest ih =>
      by_cases h : (e.1 == id) = true
      · simp only [updateKey, h, if_true, stagedRegionPairs, List.flatMap_cons, hf]
        have : (e.2.regions ++ [(r, b)]) ++ rest.flatMap (fun e => e.2.regions) =
            e.2.regions ++ ([(r, b)] ++ rest.flatMap (fun e => e.2.regions)) := by
          simp
        rw [this]
        refine List.Perm.trans (List.Perm.append_left e.2.regions
          (List.perm_append_comm)) ?_
        simp [stagedRegionPairs]
      · have h' : (e.1 == id) = false := by simpa using h
        have hid' : id ∈ mapKeys rest := by
          rw [mapKeys_cons] at hid
          rcases List.mem_cons.mp hid with hh | hh
          · exact absurd hh.symm (by simpa using h)
          · exact hh
        simp only [updateKey, h', Bool.false_eq_true, if_false, stagedRegionPairs,
          List.flatMap_cons]
        have := ih hid'
        refine List.Perm.trans (List.Perm.append_left e.2.regions this) ?_
        simp [stagedRegionPairs]

/-- `attachRegion` appends exactly one pair, with `is_new` reflecting
membership of the region in the old region set. -/
theorem attachRegion_pairs_perm {FD : Type} (acc : ReloadAcc FD) (r : Region) (id : BinaryId)
    (hid : id ∈ mapKeys acc.new_binary_map) :
    (stagedRegionPairs (attachRegion acc r id).new_binary_map).Perm
      (stagedRegionPairs acc.new_binary_map ++ [(r, !(decide (r ∈ acc.old_regions)))]) := by
  exact stagedRegionPairs_updateKey acc.new_binary_map id _ r _
    (fun d => attachUpdate_regions r _ d) hid

/-! ### The count measure preserved by the reload loop -/

/-- The count of carried-over (`is_new = false`) pairs staged so far
plus the remaining old region set is invariant across one loop
iteration: a pair is recorded as carried over exactly when its region is
removed from the old set. -/
theorem processRegion_measure {FD : Type} (cb : Region → LoadHandle → LoadHandle)
    (acc : ReloadAcc FD) (r : Region) :
    ((stagedRegionPairs (processRegion cb acc r).new_binary_map).filter
        (fun q => !q.2)).length + (processRegion cb acc r).old_regions.length =
    ((stagedRegionPairs acc.new_binary_map).filter (fun q => !q.2)).length +
      acc.old_regions.length := by
  have attach_measure : ∀ (acc2 : ReloadAcc FD),
      r.binaryId ∈ mapKeys acc2.new_binary_map →
      ((stagedRegionPairs (attachRegion acc2 r r.binaryId).new_binary_map).filter
          (fun q => !q.2)).length + (attachRegion acc2 r r.binaryId).old_regions.length =
      ((stagedRegionPairs acc2.new_binary_map).filter (fun q => !q.2)).length +
        acc2.old_regions.length := by
    intro acc2 hid
    have hperm := (attachRegion_pairs_perm acc2 r r.binaryId hid).filter (fun q => !q.2)
    have hlen := hperm.length_eq
    have hsplit : (List.filter (fun q => !q.2) (stagedRegionPairs acc2.new_binary_map ++
        [(r, !decide (r ∈ acc2.old_regions))])).length =
        (List.filter (fun q => !q.2) (stagedRegionPairs acc2.new_binary_map)).length +
          (if r ∈ acc2.old_regions then 1 else 0) := by
      rw [List.filter_append, List.length_append]
      by_cases hmem : r ∈ acc2.old_regions
      · rw [decide_eq_true hmem]
        simp [hmem]
      · rw [decide_eq_false hmem]
        simp [hmem]
    rw [attachRegion_old_regions, hlen, hsplit]
    by_cases hmem : r ∈ acc2.old_regions
    · have h1 : (acc2.old_regions.erase r).length = acc2.old_regions.length - 1 :=
        List.length_erase_of_mem hmem
      have h2 : 0 < acc2.old_regions.length := List.length_pos_of_mem hmem
      simp only [hmem, if_true]
      omega
    · rw [List.erase_of_not_mem hmem]
      simp only [hmem, if_false]
      omega
  by_cases h1 : regionFiltered r = true
  · rw [processRegion_filtered cb acc r h1]
  · rw [Bool.not_eq_true] at h1
    by_cases h2 : containsKey acc.new_binary_map r.binaryId = true
    · rw [processRegion_staged cb acc r h1 h2]
      exact attach_measure acc ((containsKey_iff _ _).mp h2)
    · rw [Bool.not_eq_true] at h2
      cases h3 : lookupKey acc.old_binary_map r.binaryId with
      | some binary =>
          rw [processRegion_reuse cb acc r binary h1 h2 h3]
          have key : r.binaryId ∈ mapKeys (acc.new_binary_map ++
              [(r.binaryId, stageFromOld r.name binary)]) := by
            rw [mapKeys_append]
            exact List.mem_append_right _ (by simp [mapKeys])
          have := attach_measure
            { acc with
                old_binary_map := eraseKey acc.old_binary_map r.binaryId,
                new_binary_map :=
                  acc.new_binary_map ++ [(r.binaryId, stageFromOld r.name binary)] }
            key
          rw [this]
          simp [stagedRegionPairs_append, stagedRegionPairs, stageFromOld]
      | none =>
          by_cases h4 : r.binaryId ∈ acc.tried_to_load
          · rw [processRegion_tried cb acc r h1 h2 h3 h4]
          · cases h5 : (cb r defaultLoadHandle).is_empty with
            | true => rw [processRegion_declined cb acc r h1 h2 h3 h4 h5]
            | false =>
                rw [processRegion_fresh cb acc r h1 h2 h3 h4 h5]
                have key : r.binaryId ∈ mapKeys (acc.new_binary_map ++
                    [(r.binaryId, stageFromHandle r.name
                        (cb r defaultLoadHandle))]) := by
                  rw [mapKeys_append]
                  exact List.mem_append_right _ (by simp [mapKeys])
                have := attach_measure
                  { acc with
                      tried_to_load := acc.tried_to_load ++ [r.binaryId],
                      loader_calls := acc.loader_calls ++ [r],
                      new_binary_map := acc.new_binary_map ++
                        [(r.binaryId, stageFromHandle r.name (cb r defaultLoadHandle))] }
                  key
                rw [this]
                simp [stagedRegionPairs_append, stagedRegionPairs, stageFromHandle]

/-- The measure is preserved by the whole loop. -/
theorem foldl_measure {FD : Type} (cb : Region → LoadHandle → LoadHandle)
    (rs : List Region) (acc : ReloadAcc FD) :
    ((stagedRegionPairs (rs.foldl (processRegion cb) acc).new_binary_map).filter
        (fun q => !q.2)).length + (rs.foldl (processRegion cb) acc).old_regions.length =
    ((stagedRegionPairs acc.new_binary_map).filter (fun q => !q.2)).length +
      acc.old_regions.length := by
  induction rs generalizing acc with
  | nil => rfl
  | cons r rest ih =>
      rw [List.foldl_cons, ih (processRegion cb acc r), processRegion_measure]

/-! ### The promotion phase -/

theorem promoteRegionStep_fold_untouched {FD : Type} (binary : Binary FD)
    (regions : List (Region × Bool)) (st : PromoteState FD) :
    (regions.foldl (promoteRegionStep binary) st).binaries_mapped = st.binaries_mapped ∧
    (regions.foldl (promoteRegionStep binary) st).binary_map = st.binary_map := by
  induction regions generalizing st with
  | nil => exact ⟨rfl, rfl⟩
  | cons rq rest ih => exact ih (promoteRegionStep binary st rq)

theorem promoteRegionStep_fold_regions_mapped {FD : Type} (binary : Binary FD)
    (regions : List (Region × Bool)) (st : PromoteState FD) :
    (regions.foldl (promoteRegionStep binary) st).regions_mapped =
      st.regions_mapped ++ (regions.filter (fun q => q.2)).map Prod.fst := by
  induction regions generalizing st with
  | nil => simp
  | cons rq rest ih =>
      rw [List.foldl_cons, ih]
      cases hq : rq.2 with
      | true => simp [promoteRegionStep, hq]
      | false => simp [promoteRegionStep, hq]

theorem promoteRegionStep_fold_new_regions {FD : Type} (binary : Binary FD)
    (regions : List (Region × Bool)) (st : PromoteState FD) :
    (regions.foldl (promoteRegionStep binary) st).new_regions.map
        (fun e => e.2.memory_region) =
      st.new_regions.map (fun e => e.2.memory_region) ++ regions.map Prod.fst := by
  induction regions generalizing st with
  | nil => simp
  | cons rq rest ih =>
      rw [List.foldl_cons, ih]
      simp [promoteRegionStep]

theorem promoteStep_spec {FD : Type} (ext : Externals FD) (st : PromoteState FD)
    (e : BinaryId × StagingData FD) :
    (promoteStep ext st e).regions_mapped =
      st.regions_mapped ++ (e.2.regions.filter (fun q => q.2)).map Prod.fst ∧
    (promoteStep ext st e).new_regions.map (fun q => q.2.memory_region) =
      st.new_regions.map (fun q => q.2.memory_region) ++ e.2.regions.map Prod.fst ∧
    (promoteStep ext st e).binaries_mapped =
      st.binaries_mapped ++
        (if e.2.is_old then [] else [(e.1.to_inode, e.2.name, e.2.binary_data)]) ∧
    (promoteStep ext st e).binary_map = st.binary_map ++ [(e.1, finalizeBinary ext e.2)] := by
  by_cases ho : e.2.is_old
  · refine ⟨?_, ?_, ?_, ?_⟩ <;>
      simp [promoteStep, ho, promoteRegionStep_fold_regions_mapped,
        promoteRegionStep_fold_new_regions,
        (promoteRegionStep_fold_untouched (finalizeBinary ext e.2) e.2.regions _).1,
        (promoteRegionStep_fold_untouched (finalizeBinary ext e.2) e.2.regions _).2]
  · refine ⟨?_, ?_, ?_, ?_⟩ <;>
      simp [promoteStep, ho, promoteRegionStep_fold_regions_mapped,
        promoteRegionStep_fold_new_regions,
        (promoteRegionStep_fold_untouched (finalizeBinary ext e.2) e.2.regions _).1,
        (promoteRegionStep_fold_untouched (finalizeBinary ext e.2) e.2.regions _).2]

theorem promote_fold_spec {FD : Type} (ext : Externals FD)
    (l : List (BinaryId × StagingData FD)) (st : PromoteState FD) :
    (l.foldl (promoteStep ext) st).regions_mapped =
      st.regions_mapped ++ ((stagedRegionPairs l).filter (fun q => q.2)).map Prod.fst ∧
    (l.foldl (promoteStep ext) st).new_regions.map (fun q => q.2.memory_region) =
      st.new_regions.map (fun q => q.2.memory_region) ++ (stagedRegionPairs l).map Prod.fst ∧
    (l.foldl (promoteStep ext) st).binaries_mapped =
      st.binaries_mapped ++ (l.filter (fun e => !e.2.is_old)).map
        (fun e => (e.1.to_inode, e.2.name, e.2.binary_data)) ∧
    mapKeys (l.foldl (promoteStep ext) st).binary_map =
      mapKeys st.binary_map ++ mapKeys l := by
  induction l generalizing st with
  | nil => simp [stagedRegionPairs, mapKeys]
  | cons e rest ih =>
      obtain ⟨ih1, ih2, ih3, ih4⟩ := ih (promoteStep ext st e)
      obtain ⟨hs1, hs2, hs3, hs4⟩ := promoteStep_spec ext st e
      have hpairs : stagedRegionPairs (e :: rest) = e.2.regions ++ stagedRegionPairs rest := by
        simp [stagedRegionPairs]
      refine ⟨?_, ?_, ?_, ?_⟩
      · rw [List.foldl_cons, ih1, hs1, hpairs]
        simp
      · rw [List.foldl_cons, ih2, hs2, hpairs]
        simp
      · rw [List.foldl_cons, ih3, hs3]
        cases ho : e.2.is_old with
        | true => simp [ho]
        | false => simp [ho]
      · rw [List.foldl_cons, ih4, hs4, mapKeys_append, mapKeys_cons]
        simp [mapKeys]

/-! ### The range-map builder and the old-region set builder -/

theorem insertByStart_perm {α : Type} (x : (Nat × Nat) × α) (l : List ((Nat × Nat) × α)) :
    (insertByStart x l).Perm (x :: l) := by
  induction l with
  | nil => exact List.Perm.refl _
  | cons y rest ih =>
      by_cases h : x.1.1 ≤ y.1.1
      · simp [insertByStart, h]
      · simp only [insertByStart, h, if_false]
        exact List.Perm.trans (List.Perm.cons y ih) (List.Perm.swap x y rest)

theorem rangeMapFromVec_perm {α : Type} (l : List ((Nat × Nat) × α)) :
    (rangeMapFromVec l).Perm l := by
  induction l with
  | nil => exact List.Perm.refl _
  | cons x rest ih =>
      have : rangeMapFromVec (x :: rest) = insertByStart x (rangeMapFromVec rest) := rfl
      rw [this]
      exact List.Perm.trans (insertByStart_perm x (rangeMapFromVec rest))
        (List.Perm.cons x ih)

theorem foldl_setInsert_of_nodup :
    ∀ (l : List Region) (acc : List Region), l.Nodup → (∀ x ∈ l, x ∉ acc) →
      l.foldl setInsert acc = acc ++ l := by
  intro l
  induction l with
  | nil => intro acc _ _; simp
  | cons r rest ih =>
      intro acc hnd hdisj
      have hr : r ∉ acc := hdisj r (List.mem_cons_self r rest)
      have h1 : setInsert acc r = acc ++ [r] := by simp [setInsert, hr]
      rw [List.foldl_cons, h1, ih (acc ++ [r]) (List.Nodup.of_cons hnd) ?_]
      · simp
      · intro x hx hmem
        rcases List.mem_append.mp hmem with hacc | hsing
        · exact hdisj x (List.mem_cons_of_mem r hx) hacc
        · rw [List.mem_singleton.mp hsing] at hx
          exact (List.nodup_cons.mp hnd).1 hx

theorem filter_length_split {α : Type} (p : α → Bool) (l : List α) :
    (l.filter p).length + (l.filter (fun a => !p a)).length = l.length := by
  induction l with
  | nil => rfl
  | cons a rest ih =>
      by_cases h : p a = true
      · simp only [List.filter_cons, h, Bool.not_true, Bool.false_eq_true, if_false,
          if_true, List.length_cons]
        omega
      · rw [Bool.not_eq_true] at h
        simp only [List.filter_cons, h, Bool.not_false, Bool.false_eq_true, if_false,
          if_true, List.length_cons]
        omega

/-! ### C6: the region-count arithmetic of the reload delta -/

/-- **C6.** For every reload, `|regions_mapped| - |regions_unmapped|`
equals the change in region-map cardinality — this is the source's
closing assertion (line 573), proved here for every prior state whose
region map holds pairwise distinct regions (which the range-map
builder's disjointness assertion guarantees for reachable states). -/
theorem reload_region_count_delta {FD : Type} (ext : Externals FD)
    (try_load : Region → LoadHandle → LoadHandle) (s : ASState FD) (rs : List Region)
    (h : (s.regions.map (fun e => e.2.memory_region)).Nodup) :
    ((reload ext try_load s rs).reloaded.regions_mapped.length : ℤ) -
      ((reload ext try_load s rs).reloaded.regions_unmapped.length : ℤ) =
    ((reload ext try_load s rs).state.regions.length : ℤ) - (s.regions.length : ℤ) := by
  have hacc0 : (initialReloadAcc s).old_regions =
      s.regions.map (fun e => e.2.memory_region) := by
    show (s.regions.map (fun e => e.2.memory_region)).foldl setInsert [] = _
    rw [foldl_setInsert_of_nodup _ [] h (by simp)]
    simp
  have hmeasure := foldl_measure try_load rs (initialReloadAcc s)
  have hpairs0 : stagedRegionPairs (initialReloadAcc s).new_binary_map = [] := rfl
  rw [hpairs0, hacc0] at hmeasure
  simp only [List.filter_nil, List.length_nil, Nat.zero_add, List.length_map] at hmeasure
  obtain ⟨hp1, hp2, _, _⟩ := promote_fold_spec ext
    ((rs.foldl (processRegion try_load) (initialReloadAcc s)).new_binary_map)
    (⟨[], [], [], []⟩ : PromoteState FD)
  have hsplit := filter_length_split (fun q : Region × Bool => q.2)
    (stagedRegionPairs (rs.foldl (processRegion try_load) (initialReloadAcc s)).new_binary_map)
  have hlen_new : ((rs.foldl (processRegion try_load)
      (initialReloadAcc s)).new_binary_map.foldl (promoteStep ext)
        (⟨[], [], [], []⟩ : PromoteState FD)).new_regions.length =
      (stagedRegionPairs (rs.foldl (processRegion try_load)
        (initialReloadAcc s)).new_binary_map).length := by
    have := congrArg List.length hp2
    simpa using this
  simp only [reload]
  rw [hp1]
  simp only [List.nil_append, List.length_map]
  rw [(rangeMapFromVec_perm _).length_eq, hlen_new]
  omega

/-- Witness for C6 on the first step of the source's `test_reload`
scenario: two fresh regions produce a delta of `2 - 0` matching the
region map growing from 0 to 2 entries. -/
theorem reload_region_count_delta_witness :
    ((reload testExternals testCallback emptyAddressSpace
        [testRegion 0x1000 1 "file_1", testRegion 0x2000 2 "file_2"]).reloaded.regions_mapped.length : ℤ) -
      ((reload testExternals testCallback emptyAddressSpace
        [testRegion 0x1000 1 "file_1", testRegion 0x2000 2 "file_2"]).reloaded.regions_unmapped.length : ℤ) =
    ((reload testExternals testCallback emptyAddressSpace
        [testRegion 0x1000 1 "file_1", testRegion 0x2000 2 "file_2"]).state.regions.length : ℤ) -
      ((emptyAddressSpace.regions.length : ℤ)) :=
  reload_region_count_delta testExternals testCallback emptyAddressSpace
    [testRegion 0x1000 1 "file_1", testRegion 0x2000 2 "file_2"] (by decide)

/-! ### Monotonicity and freezing facts about the reload loop -/

theorem mem_mapKeys_eraseKey {α : Type} (l : List (BinaryId × α)) (j id : BinaryId)
    (h : id ∈ mapKeys (eraseKey l j)) : id ∈ mapKeys l := by
  induction l with
  | nil => simpa [eraseKey] using h
  | cons e rest ih =>
      by_cases he : (e.1 == j) = true
      · simp only [eraseKey, he, if_true] at h
        rw [mapKeys_cons]
        exact List.mem_cons_of_mem _ h
      · have he' : (e.1 == j) = false := by simpa using he
        simp only [eraseKey, he', Bool.false_eq_true, if_false] at h
        rw [mapKeys_cons] at h ⊢
        rcases List.mem_cons.mp h with hh | hh
        · exact List.mem_cons.mpr (Or.inl hh)
        · exact List.mem_cons.mpr (Or.inr (ih hh))

theorem mem_updateKey {α : Type} (l : List (BinaryId × α)) (id : BinaryId) (f : α → α)
    (e : BinaryId × α) (he : e ∈ updateKey l id f) :
    e ∈ l ∨ ∃ d, (e.1, d) ∈ l ∧ e.2 = f d := by
  induction l with
  | nil => simp [updateKey] at he
  | cons x rest ih =>
      by_cases hx : (x.1 == id) = true
      · simp only [updateKey, hx, if_true] at he
        rcases List.mem_cons.mp he with hh | hh
        · refine Or.inr ⟨x.2, ?_, by rw [hh]⟩
          rw [hh]
          simp
        · exact Or.inl (List.mem_cons_of_mem x hh)
      · have hx' : (x.1 == id) = false := by simpa using hx
        simp only [updateKey, hx', Bool.false_eq_true, if_false] at he
        rcases List.mem_cons.mp he with hh | hh
        · exact Or.inl (List.mem_cons.mpr (Or.inl hh))
        · rcases ih hh with hh' | ⟨d, hd, hfd⟩
          · exact Or.inl (List.mem_cons_of_mem x hh')
          · exact Or.inr ⟨d, List.mem_cons_of_mem x hd, hfd⟩

/-- The staging keys after one iteration: unchanged, or — when the
iteration staged this region's identity — extended by it at the end. -/
theorem processRegion_keys_shape {FD : Type} (cb : Region → LoadHandle → LoadHandle)
    (acc : ReloadAcc FD) (r : Region) :
    mapKeys (processRegion cb acc r).new_binary_map = mapKeys acc.new_binary_map ∨
    (r.binaryId ∉ mapKeys acc.new_binary_map ∧
      mapKeys (processRegion cb acc r).new_binary_map =
        mapKeys acc.new_binary_map ++ [r.binaryId]) := by
  by_cases h1 : regionFiltered r = true
  · rw [processRegion_filtered cb acc r h1]; exact Or.inl rfl
  · rw [Bool.not_eq_true] at h1
    by_cases h2 : containsKey acc.new_binary_map r.binaryId = true
    · rw [processRegion_staged cb acc r h1 h2, attachRegion_keys]; exact Or.inl rfl
    · rw [Bool.not_eq_true] at h2
      have h2' : r.binaryId ∉ mapKeys acc.new_binary_map := by
        intro hc
        rw [(containsKey_iff _ _).mpr hc] at h2
        exact Bool.true_eq_false.mp h2
      cases h3 : lookupKey acc.old_binary_map r.binaryId with
      | some binary =>
          rw [processRegion_reuse cb acc r binary h1 h2 h3, attachRegion_keys]
          exact Or.inr ⟨h2', by rw [mapKeys_append]; rfl⟩
      | none =>
          by_cases h4 : r.binaryId ∈ acc.tried_to_load
          · rw [processRegion_tried cb acc r h1 h2 h3 h4]; exact Or.inl rfl
          · cases h5 : (cb r defaultLoadHandle).is_empty with
            | true => rw [processRegion_declined cb acc r h1 h2 h3 h4 h5]; exact Or.inl rfl
            | false =>
                rw [processRegion_fresh cb acc r h1 h2 h3 h4 h5, attachRegion_keys]
                exact Or.inr ⟨h2', by rw [mapKeys_append]; rfl⟩

theorem processRegion_keys_mono {FD : Type} (cb : Region → LoadHandle → LoadHandle)
    (acc : ReloadAcc FD) (r : Region) (id : BinaryId)
    (h : id ∈ mapKeys acc.new_binary_map) :
    id ∈ mapKeys (processRegion cb acc r).new_binary_map := by
  rcases processRegion_keys_shape cb acc r with hs | ⟨_, hs⟩
  · rw [hs]; exact h
  · rw [hs]; exact List.mem_append_left _ h

theorem foldl_keys_mono {FD : Type} (cb : Region → LoadHandle → LoadHandle)
    (rs : List Region) (acc : ReloadAcc FD) (id : BinaryId)
    (h : id ∈ mapKeys acc.new_binary_map) :
    id ∈ mapKeys ((rs.foldl (processRegion cb) acc).new_binary_map) := by
  induction rs generalizing acc with
  | nil => exact h
  | cons r rest ih =>
      rw [List.foldl_cons]
      exact ih (processRegion cb acc r) (processRegion_keys_mono cb acc r id h)

/-- An identity that has been tried but not staged, and is absent from
the old binary map, stays in that situation for the rest of the loop —
the loader-refusal is final within one reload. -/
theorem processRegion_tried_frozen {FD : Type} (cb : Region → LoadHandle → LoadHandle)
    (acc : ReloadAcc FD) (r : Region) (id : BinaryId)
    (h1 : id ∈ acc.tried_to_load)
    (h2 : id ∉ mapKeys acc.new_binary_map)
    (h3 : id ∉ mapKeys acc.old_binary_map) :
    id ∈ (processRegion cb acc r).tried_to_load ∧
    id ∉ mapKeys (processRegion cb acc r).new_binary_map ∧
    id ∉ mapKeys (processRegion cb acc r).old_binary_map := by
  by_cases hb1 : regionFiltered r = true
  · rw [processRegion_filtered cb acc r hb1]; exact ⟨h1, h2, h3⟩
  · rw [Bool.not_eq_true] at hb1
    by_cases hb2 : containsKey acc.new_binary_map r.binaryId = true
    · rw [processRegion_staged cb acc r hb1 hb2]
      rw [attachRegion_tried, attachRegion_old_binary_map]
      refine ⟨h1, ?_, h3⟩
      rw [attachRegion_keys]
      exact h2
    · rw [Bool.not_eq_true] at hb2
      cases hb3 : lookupKey acc.old_binary_map r.binaryId with
      | some binary =>
          rw [processRegion_reuse cb acc r binary hb1 hb2 hb3]
          have hrid_old : r.binaryId ∈ mapKeys acc.old_binary_map := by
            rw [← lookupKey_isSome_iff, hb3]
            rfl
          have hne : id ≠ r.binaryId := fun hc => h3 (hc ▸ hrid_old)
          rw [attachRegion_tried, attachRegion_old_binary_map, attachRegion_keys]
          refine ⟨h1, ?_, ?_⟩
          · rw [mapKeys_append]
            intro hc
            rcases List.mem_append.mp hc with hh | hh
            · exact h2 hh
            · exact hne (by simpa [mapKeys] using hh)
          · intro hc
            exact h3 (mem_mapKeys_eraseKey _ _ _ hc)
      | none =>
          by_cases hb4 : r.binaryId ∈ acc.tried_to_load
          · rw [processRegion_tried cb acc r hb1 hb2 hb3 hb4]; exact ⟨h1, h2, h3⟩
          · have hne : id ≠ r.binaryId := fun hc => hb4 (hc ▸ h1)
            cases hb5 : (cb r defaultLoadHandle).is_empty with
            | true =>
                rw [processRegion_declined cb acc r hb1 hb2 hb3 hb4 hb5]
                exact ⟨List.mem_append_left _ h1, h2, h3⟩
            | false =>
                rw [processRegion_fresh cb acc r hb1 hb2 hb3 hb4 hb5]
                rw [attachRegion_tried, attachRegion_old_binary_map, attachRegion_keys]
                refine ⟨List.mem_append_left _ h1, ?_, h3⟩
                rw [mapKeys_append]
                intro hc
                rcases List.mem_append.mp hc with hh | hh
                · exact h2 hh
                · exact hne (by simpa [mapKeys] using hh)

/-- The freezing fact extended over the rest of the loop. -/
theorem foldl_tried_frozen {FD : Type} (cb : Region → LoadHandle → LoadHandle)
    (rs : List Region) (acc : ReloadAcc FD) (id : BinaryId)
    (h1 : id ∈ acc.tried_to_load)
    (h2 : id ∉ mapKeys acc.new_binary_map)
    (h3 : id ∉ mapKeys acc.old_binary_map) :
    id ∈ (rs.foldl (processRegion cb) acc).tried_to_load ∧
    id ∉ mapKeys ((rs.foldl (processRegion cb) acc).new_binary_map) ∧
    id ∉ mapKeys ((rs.foldl (processRegion cb) acc).old_binary_map) := by
  induction rs generalizing acc with
  | nil => exact ⟨h1, h2, h3⟩
  | cons r rest ih =>
      rw [List.foldl_cons]
      obtain ⟨g1, g2, g3⟩ := processRegion_tried_frozen cb acc r id h1 h2 h3
      exact ih (processRegion cb acc r) g1 g2 g3

theorem lookupKey_cons {α : Type} (e : BinaryId × α) (rest : List (BinaryId × α))
    (id : BinaryId) :
    lookupKey (e :: rest) id =
      if (e.1 == id) = true then some e.2 else lookupKey rest id := by
  by_cases h : (e.1 == id) = true
  · simp [lookupKey, List.find?_cons, h]
  · have h' : (e.1 == id) = false := by simpa using h
    simp [lookupKey, List.find?_cons, h']

theorem lookupKey_mem_exists {α : Type} (l : List (BinaryId × α)) (id : BinaryId)
    (h : id ∈ mapKeys l) : ∃ v, lookupKey l id = some v := by
  have := (lookupKey_isSome_iff l id).mpr h
  exact Option.isSome_iff_exists.mp this

theorem foldl_keys_nodup {FD : Type} (cb : Region → LoadHandle → LoadHandle)
    (rs : List Region) (acc : ReloadAcc FD)
    (h : (mapKeys acc.new_binary_map).Nodup) :
    (mapKeys ((rs.foldl (processRegion cb) acc).new_binary_map)).Nodup := by
  induction rs generalizing acc with
  | nil => exact h
  | cons r rest ih =>
      rw [List.foldl_cons]
      refine ih (processRegion cb acc r) ?_
      rcases processRegion_keys_shape cb acc r with hs | ⟨hnotin, hs⟩
      · rw [hs]; exact h
      · rw [hs, List.nodup_append]
        exact ⟨h, List.nodup_singleton _, by
          intro a ha hb
          rw [List.mem_singleton.mp hb] at ha
          exact hnotin ha⟩

theorem eraseKey_filter {α : Type} (l : List (BinaryId × α)) (S : List BinaryId)
    (id : BinaryId) (hnd : (mapKeys l).Nodup) :
    eraseKey (l.filter (fun e => !decide (e.1 ∈ S))) id =
      l.filter (fun e => !decide (e.1 ∈ S ++ [id])) := by
  induction l with
  | nil => rfl
  | cons e rest ih =>
      rw [mapKeys_cons, List.nodup_cons] at hnd
      obtain ⟨hnotin, hnd'⟩ := hnd
      by_cases hS : e.1 ∈ S
      · have h1 : (!decide (e.1 ∈ S)) = false := by simp [hS]
        have h2 : (!decide (e.1 ∈ S ++ [id])) = false := by
          simp [List.mem_append.mpr (Or.inl hS)]
        simp only [List.filter_cons, h1, h2, Bool.false_eq_true, if_false]
        exact ih hnd'
      · have h1 : (!decide (e.1 ∈ S)) = true := by simp [hS]
        by_cases hid : e.1 = id
        · have h2 : (!decide (e.1 ∈ S ++ [id])) = false := by
            simp [List.mem_append, hid]
          simp only [List.filter_cons, h1, h2, if_true, Bool.false_eq_true, if_false]
          have hhit : (e.1 == id) = true := by simpa using hid
          simp only [eraseKey, hhit, if_true]
          refine List.filter_congr ?_
          intro x hx
          have hxne : x.1 ≠ id := by
            intro hc
            rw [← hid] at hc
            exact hnotin (by rw [← hc]; exact List.mem_map_of_mem Prod.fst hx)
          simp [List.mem_append, hxne]
        · have h2 : (!decide (e.1 ∈ S ++ [id])) = true := by
            simp [List.mem_append, hS, hid]
          have hmiss : (e.1 == id) = false := by simpa using hid
          simp only [List.filter_cons, h1, h2, if_true]
          simp only [eraseKey, hmiss, Bool.false_eq_true, if_false]
          rw [ih hnd']

theorem lookupKey_filter {α : Type} (l : List (BinaryId × α)) (S : List BinaryId)
    (id : BinaryId) :
    lookupKey (l.filter (fun e => !decide (e.1 ∈ S))) id =
      if id ∈ S then none else lookupKey l id := by
  induction l with
  | nil => by_cases h : id ∈ S <;> simp [lookupKey, h]
  | cons e rest ih =>
      by_cases hS : e.1 ∈ S
      · have h1 : (!decide (e.1 ∈ S)) = false := by simp [hS]
        simp only [List.filter_cons, h1, Bool.false_eq_true, if_false]
        rw [ih]
        by_cases hid : id ∈ S
        · simp [hid]
        · have hne : (e.1 == id) = false := by
            simp only [beq_eq_false_iff_ne, ne_eq]
            intro hc
            exact hid (hc ▸ hS)
          simp only [hid, if_false]
          rw [lookupKey_cons]
          simp [hne]
      · have h1 : (!decide (e.1 ∈ S)) = true := by simp [hS]
        simp only [List.filter_cons, h1, if_true]
        rw [lookupKey_cons, lookupKey_cons]
        by_cases hit : (e.1 == id) = true
        · have : id ∉ S := by
            intro hc
            exact hS ((beq_iff_eq.mp hit) ▸ hc)
          simp [hit, this]
        · have hit' : (e.1 == id) = false := by simpa using hit
          simp only [hit', Bool.false_eq_true, if_false]
          exact ih

theorem stageFromOld_regions {FD : Type} (name : String) (b : Binary FD) :
    (stageFromOld name b).regions = [] := rfl

theorem stageFromHandle_regions {FD : Type} (name : String) (h : LoadHandle) :
    (@stageFromHandle FD name h).regions = [] := rfl

/-- The regions recorded across the staging map at the end of the loop
are exactly the incoming regions that are not filtered and whose
identity ended up staged. -/
theorem foldl_pairs_perm {FD : Type} (cb : Region → LoadHandle → LoadHandle)
    (rs : List Region) (acc : ReloadAcc FD) :
    ((stagedRegionPairs (rs.foldl (processRegion cb) acc).new_binary_map).map Prod.fst).Perm
      ((stagedRegionPairs acc.new_binary_map).map Prod.fst ++
        rs.filter (fun q => !regionFiltered q &&
          decide (q.binaryId ∈
            mapKeys ((rs.foldl (processRegion cb) acc).new_binary_map)))) := by
  induction rs generalizing acc with
  | nil => simp
  | cons r rest ih =>
      rw [List.foldl_cons]
      by_cases hb1 : regionFiltered r = true
      · rw [processRegion_filtered cb acc r hb1]
        have hpr : (!regionFiltered r && decide (r.binaryId ∈
            mapKeys ((rest.foldl (processRegion cb) acc).new_binary_map))) = false := by
          rw [hb1]
          rfl
        rw [List.filter_cons, hpr]
        simp only [Bool.false_eq_true, if_false]
        exact ih acc
      · rw [Bool.not_eq_true] at hb1
        have main : ∀ (acc2 : ReloadAcc FD),
            stagedRegionPairs acc2.new_binary_map = stagedRegionPairs acc.new_binary_map →
            r.binaryId ∈ mapKeys acc2.new_binary_map →
            ((stagedRegionPairs ((rest.foldl (processRegion cb)
                (attachRegion acc2 r r.binaryId)).new_binary_map)).map Prod.fst).Perm
              ((stagedRegionPairs acc.new_binary_map).map Prod.fst ++
                List.filter (fun q => !regionFiltered q && decide (q.binaryId ∈
                  mapKeys ((rest.foldl (processRegion cb)
                    (attachRegion acc2 r r.binaryId)).new_binary_map))) (r :: rest)) := by
          intro acc2 hpairs hkey
          have hKF : r.binaryId ∈ mapKeys ((rest.foldl (processRegion cb)
              (attachRegion acc2 r r.binaryId)).new_binary_map) :=
            foldl_keys_mono cb rest _ _ (by rw [attachRegion_keys]; exact hkey)
          have hpr : (!regionFiltered r && decide (r.binaryId ∈
              mapKeys ((rest.foldl (processRegion cb)
                (attachRegion acc2 r r.binaryId)).new_binary_map))) = true := by
            rw [hb1, decide_eq_true hKF]
            rfl
          have hfilt_eq : List.filter (fun q => !regionFiltered q && decide (q.binaryId ∈
              mapKeys ((rest.foldl (processRegion cb)
                (attachRegion acc2 r r.binaryId)).new_binary_map))) (r :: rest) =
              r :: List.filter (fun q => !regionFiltered q && decide (q.binaryId ∈
                mapKeys ((rest.foldl (processRegion cb)
                  (attachRegion acc2 r r.binaryId)).new_binary_map))) rest := by
            rw [List.filter_cons, hpr]
            simp
          rw [hfilt_eq]
          have hstep := (attachRegion_pairs_perm acc2 r r.binaryId hkey).map Prod.fst
          rw [hpairs] at hstep
          have hstep' : ((stagedRegionPairs
              (attachRegion acc2 r r.binaryId).new_binary_map).map Prod.fst).Perm
              ((stagedRegionPairs acc.new_binary_map).map Prod.fst ++ [r]) := by
            simpa using hstep
          refine (ih (attachRegion acc2 r r.binaryId)).trans ?_
          refine (List.Perm.append_right _ hstep').trans ?_
          rw [List.append_assoc, List.singleton_append]
        by_cases hb2 : containsKey acc.new_binary_map r.binaryId = true
        · rw [processRegion_staged cb acc r hb1 hb2]
          exact main acc rfl ((containsKey_iff _ _).mp hb2)
        · rw [Bool.not_eq_true] at hb2
          have h2' : r.binaryId ∉ mapKeys acc.new_binary_map := by
            intro hc
            rw [(containsKey_iff _ _).mpr hc] at hb2
            exact Bool.true_eq_false.mp hb2
          cases hb3 : lookupKey acc.old_binary_map r.binaryId with
          | some binary =>
              rw [processRegion_reuse cb acc r binary hb1 hb2 hb3]
              refine main _ ?_ ?_
              · rw [stagedRegionPairs_append]
                simp [stagedRegionPairs, stageFromOld]
              · rw [mapKeys_append]
                exact List.mem_append_right _ (by simp [mapKeys])
          | none =>
              have h3' : r.binaryId ∉ mapKeys acc.old_binary_map :=
                (lookupKey_eq_none_iff _ _).mp hb3
              by_cases hb4 : r.binaryId ∈ acc.tried_to_load
              · rw [processRegion_tried cb acc r hb1 hb2 hb3 hb4]
                have hfrozen := foldl_tried_frozen cb rest acc r.binaryId hb4 h2' h3'
                have hpr : (!regionFiltered r && decide (r.binaryId ∈
                    mapKeys ((rest.foldl (processRegion cb) acc).new_binary_map))) = false := by
                  rw [hb1, decide_eq_false hfrozen.2.1]
                  rfl
                rw [List.filter_cons, hpr]
                simp only [Bool.false_eq_true, if_false]
                exact ih acc
              · cases hb5 : (cb r defaultLoadHandle).is_empty with
                | true =>
                    rw [processRegion_declined cb acc r hb1 hb2 hb3 hb4 hb5]
                    have hfrozen := foldl_tried_frozen cb rest
                      { acc with
                          tried_to_load := acc.tried_to_load ++ [r.binaryId],
                          loader_calls := acc.loader_calls ++ [r] } r.binaryId
                      (List.mem_append_right _ (List.mem_singleton.mpr rfl)) h2' h3'
                    have hpr : (!regionFiltered r && decide (r.binaryId ∈
                        mapKeys ((rest.foldl (processRegion cb)
                          { acc with
                              tried_to_load := acc.tried_to_load ++ [r.binaryId],
                              loader_calls := acc.loader_calls ++ [r] }).new_binary_map))) =
                        false := by
                      rw [hb1, decide_eq_false hfrozen.2.1]
                      rfl
                    rw [List.filter_cons, hpr]
                    simp only [Bool.false_eq_true, if_false]
                    exact ih _
                | false =>
                    rw [processRegion_fresh cb acc r hb1 hb2 hb3 hb4 hb5]
                    refine main _ ?_ ?_
                    · rw [stagedRegionPairs_append]
                      simp [stagedRegionPairs, stageFromHandle]
                    · rw [mapKeys_append]
                      exact List.mem_append_right _ (by simp [mapKeys])

theorem containsKey_eq_false_iff {α : Type} (l : List (BinaryId × α)) (id : BinaryId) :
    containsKey l id = false ↔ id ∉ mapKeys l := by
  constructor
  · intro h hc
    rw [(containsKey_iff l id).mpr hc] at h
    exact Bool.true_eq_false.mp h
  · intro h
    cases hc : containsKey l id with
    | false => rfl
    | true => exact absurd ((containsKey_iff l id).mp hc) h

theorem allOldStaging_attach {FD : Type} (acc : ReloadAcc FD) (r : Region) (id : BinaryId)
    (h : allOldStaging acc.new_binary_map) (hmem : r ∈ acc.old_regions) :
    allOldStaging (attachRegion acc r id).new_binary_map := by
  intro e he
  rcases mem_updateKey _ _ _ e he with hin | ⟨d, hd, hfd⟩
  · exact h e hin
  · obtain ⟨hold, hflags⟩ := h (e.1, d) hd
    constructor
    · rw [hfd, attachUpdate_is_old]
      exact hold
    · intro q hq
      rw [hfd, attachUpdate_regions] at hq
      rcases List.mem_append.mp hq with hq' | hq'
      · exact hflags q hq'
      · rw [List.mem_singleton.mp hq']
        simp [decide_eq_true hmem]

theorem allOldStaging_append_old {FD : Type} (l : List (BinaryId × StagingData FD))
    (id : BinaryId) (name : String) (b : Binary FD)
    (h : allOldStaging l) : allOldStaging (l ++ [(id, stageFromOld name b)]) := by
  intro e he
  rcases List.mem_append.mp he with hin | hin
  · exact h e hin
  · rw [List.mem_singleton.mp hin]
    exact ⟨rfl, by intro q hq; simp [stageFromOld] at hq⟩

/-- The coupling between a reload pass and a re-run of the same pass
from the state the first pass produced: starting from the binary table
`binMap1` built by the first pass, the second pass stages the same
identities at every step, reuses every binary, finds every admitted
region in its old-region set, and drains both old maps completely. -/
theorem reload_coupling {FD : Type} (cb : Region → LoadHandle → LoadHandle)
    (binMap1 : List (BinaryId × Binary FD))
    (hnd : (mapKeys binMap1).Nodup) :
    ∀ (t : List Region) (acc1 acc2 : ReloadAcc FD),
      mapKeys binMap1 = mapKeys ((t.foldl (processRegion cb) acc1).new_binary_map) →
      mapKeys acc2.new_binary_map = mapKeys acc1.new_binary_map →
      acc2.old_binary_map =
        binMap1.filter (fun e => !decide (e.1 ∈ mapKeys acc1.new_binary_map)) →
      acc2.old_regions.Perm (t.filter (fun q => !regionFiltered q &&
        decide (q.binaryId ∈ mapKeys binMap1))) →
      allOldStaging acc2.new_binary_map →
      acc2.tried_to_load = acc1.tried_to_load.filter
        (fun i => !decide (i ∈ mapKeys binMap1)) →
      (t.foldl (processRegion cb) acc2).old_binary_map =
        binMap1.filter (fun e => !decide (e.1 ∈
          mapKeys ((t.foldl (processRegion cb) acc1).new_binary_map))) ∧
      (t.foldl (processRegion cb) acc2).old_regions = [] ∧
      allOldStaging ((t.foldl (processRegion cb) acc2).new_binary_map) := by
  intro t
  induction t with
  | nil =>
      intro acc1 acc2 hfin i1 i2 i3 i4 i5
      exact ⟨i2, List.Perm.eq_nil (by simpa using i3), i4⟩
  | cons r rest ih =>
      intro acc1 acc2 hfin i1 i2 i3 i4 i5
      rw [List.foldl_cons] at hfin ⊢
      rw [List.foldl_cons]
      by_cases hb1 : regionFiltered r = true
      · rw [processRegion_filtered cb acc1 r hb1] at hfin ⊢
        rw [processRegion_filtered cb acc2 r hb1]
        have hpred : (!regionFiltered r &&
            decide (r.binaryId ∈ mapKeys binMap1)) = false := by
          rw [hb1]; rfl
        refine ih acc1 acc2 hfin i1 i2 ?_ i4 i5
        rw [List.filter_cons, hpred] at i3
        simpa using i3
      · rw [Bool.not_eq_true] at hb1
        by_cases hb2 : containsKey acc1.new_binary_map r.binaryId = true
        · -- both passes already have the identity staged
          have hkey1 : r.binaryId ∈ mapKeys acc1.new_binary_map := (containsKey_iff _ _).mp hb2
          have hc2 : containsKey acc2.new_binary_map r.binaryId = true :=
            (containsKey_iff _ _).mpr (i1 ▸ hkey1)
          rw [processRegion_staged cb acc1 r hb1 hb2] at hfin ⊢
          rw [processRegion_staged cb acc2 r hb1 hc2]
          have hKbin : r.binaryId ∈ mapKeys binMap1 := by
            rw [hfin]
            exact foldl_keys_mono cb rest _ _ (by rw [attachRegion_keys]; exact hkey1)
          have hpred : (!regionFiltered r &&
              decide (r.binaryId ∈ mapKeys binMap1)) = true := by
            rw [hb1, decide_eq_true hKbin]; rfl
          rw [List.filter_cons, hpred] at i3
          simp only [if_true] at i3
          have hrmem : r ∈ acc2.old_regions := i3.mem_iff.mpr (List.mem_cons_self _ _)
          refine ih (attachRegion acc1 r r.binaryId) (attachRegion acc2 r r.binaryId)
            hfin ?_ ?_ ?_ ?_ ?_
          · rw [attachRegion_keys, attachRegion_keys]; exact i1
          · rw [attachRegion_old_binary_map, attachRegion_keys]; exact i2
          · rw [attachRegion_old_regions]
            have := i3.erase r
            rwa [List.erase_cons_head] at this
          · exact allOldStaging_attach acc2 r r.binaryId i4 hrmem
          · rw [attachRegion_tried, attachRegion_tried]; exact i5
        · rw [Bool.not_eq_true] at hb2
          have h2' : r.binaryId ∉ mapKeys acc1.new_binary_map :=
            (containsKey_eq_false_iff _ _).mp hb2
          have hc2 : containsKey acc2.new_binary_map r.binaryId = false :=
            (containsKey_eq_false_iff _ _).mpr (i1 ▸ h2')
          cases hb3 : lookupKey acc1.old_binary_map r.binaryId with
          | some binary =>
              -- pass 1 reuses from its old map; pass 2 reuses from binMap1
              rw [processRegion_reuse cb acc1 r binary hb1 hb2 hb3] at hfin ⊢
              have hKbin : r.binaryId ∈ mapKeys binMap1 := by
                rw [hfin]
                refine foldl_keys_mono cb rest _ _ ?_
                rw [attachRegion_keys, mapKeys_append]
                exact List.mem_append_right _ (by simp [mapKeys])
              obtain ⟨binary2, hlk2⟩ := lookupKey_mem_exists binMap1 r.binaryId hKbin
              have hlk2' : lookupKey acc2.old_binary_map r.binaryId = some binary2 := by
                rw [i2, lookupKey_filter]
                simp only [h2', if_false]
                exact hlk2
              rw [processRegion_reuse cb acc2 r binary2 hb1 hc2 hlk2']
              have hpred : (!regionFiltered r &&
                  decide (r.binaryId ∈ mapKeys binMap1)) = true := by
                rw [hb1, decide_eq_true hKbin]; rfl
              rw [List.filter_cons, hpred] at i3
              simp only [if_true] at i3
              have hrmem : r ∈ acc2.old_regions := i3.mem_iff.mpr (List.mem_cons_self _ _)
              refine ih _ _ hfin ?_ ?_ ?_ ?_ ?_
              · rw [attachRegion_keys, attachRegion_keys, mapKeys_append, mapKeys_append]
                simp only [i1]
                rfl
              · rw [attachRegion_old_binary_map, attachRegion_keys, mapKeys_append]
                show eraseKey acc2.old_binary_map r.binaryId = _
                rw [i2, eraseKey_filter binMap1 _ _ hnd]
                rfl
              · rw [attachRegion_old_regions]
                show (acc2.old_regions.erase r).Perm _
                have := i3.erase r
                rwa [List.erase_cons_head] at this
              · refine allOldStaging_attach _ r r.binaryId ?_ hrmem
                exact allOldStaging_append_old acc2.new_binary_map r.binaryId r.name binary2 i4
              · rw [attachRegion_tried, attachRegion_tried]
                exact i5
          | none =>
              have h3' : r.binaryId ∉ mapKeys acc1.old_binary_map :=
                (lookupKey_eq_none_iff _ _).mp hb3
              by_cases hb4 : r.binaryId ∈ acc1.tried_to_load
              · -- pass 1 already tried and failed this identity
                rw [processRegion_tried cb acc1 r hb1 hb2 hb3 hb4] at hfin ⊢
                have hKnot : r.binaryId ∉ mapKeys binMap1 := by
                  rw [hfin]
                  exact (foldl_tried_frozen cb rest acc1 r.binaryId hb4 h2' h3').2.1
                have hlk2' : lookupKey acc2.old_binary_map r.binaryId = none := by
                  rw [i2, lookupKey_filter]
                  simp only [h2', if_false]
                  exact (lookupKey_eq_none_iff _ _).mpr hKnot
                have htried2 : r.binaryId ∈ acc2.tried_to_load := by
                  rw [i5]
                  refine List.mem_filter.mpr ⟨hb4, ?_⟩
                  simp [hKnot]
                rw [processRegion_tried cb acc2 r hb1 hc2 hlk2' htried2]
                have hpred : (!regionFiltered r &&
                    decide (r.binaryId ∈ mapKeys binMap1)) = false := by
                  rw [hb1, decide_eq_false hKnot]; rfl
                rw [List.filter_cons, hpred] at i3
                simp only [Bool.false_eq_true, if_false] at i3
                exact ih acc1 acc2 hfin i1 i2 i3 i4 i5
              · cases hb5 : (cb r defaultLoadHandle).is_empty with
                | true =>
                    -- the loader declines in both passes
                    rw [processRegion_declined cb acc1 r hb1 hb2 hb3 hb4 hb5] at hfin ⊢
                    have hKnot : r.binaryId ∉ mapKeys binMap1 := by
                      rw [hfin]
                      exact (foldl_tried_frozen cb rest
                        { acc1 with
                            tried_to_load := acc1.tried_to_load ++ [r.binaryId],
                            loader_calls := acc1.loader_calls ++ [r] } r.binaryId
                        (List.mem_append_right _ (List.mem_singleton.mpr rfl))
                        h2' h3').2.1
                    have hlk2' : lookupKey acc2.old_binary_map r.binaryId = none := by
                      rw [i2, lookupKey_filter]
                      simp only [h2', if_false]
                      exact (lookupKey_eq_none_iff _ _).mpr hKnot
                    have htried2 : r.binaryId ∉ acc2.tried_to_load := by
                      rw [i5]
                      intro hc
                      exact hb4 (List.mem_filter.mp hc).1
                    rw [processRegion_declined cb acc2 r hb1 hc2 hlk2' htried2 hb5]
                    have hpred : (!regionFiltered r &&
                        decide (r.binaryId ∈ mapKeys binMap1)) = false := by
                      rw [hb1, decide_eq_false hKnot]; rfl
                    rw [List.filter_cons, hpred] at i3
                    simp only [Bool.false_eq_true, if_false] at i3
                    refine ih _ _ hfin i1 i2 i3 i4 ?_
                    show acc2.tried_to_load ++ [r.binaryId] =
                      (acc1.tried_to_load ++ [r.binaryId]).filter
                        (fun i => !decide (i ∈ mapKeys binMap1))
                    rw [List.filter_append, i5]
                    congr 1
                    simp [hKnot]
                | false =>
                    -- pass 1 loads the binary afresh; pass 2 reuses it
                    rw [processRegion_fresh cb acc1 r hb1 hb2 hb3 hb4 hb5] at hfin ⊢
                    have hKbin : r.binaryId ∈ mapKeys binMap1 := by
                      rw [hfin]
                      refine foldl_keys_mono cb rest _ _ ?_
                      rw [attachRegion_keys, mapKeys_append]
                      exact List.mem_append_right _ (by simp [mapKeys])
                    obtain ⟨binary2, hlk2⟩ := lookupKey_mem_exists binMap1 r.binaryId hKbin
                    have hlk2' : lookupKey acc2.old_binary_map r.binaryId = some binary2 := by
                      rw [i2, lookupKey_filter]
                      simp only [h2', if_false]
                      exact hlk2
                    rw [processRegion_reuse cb acc2 r binary2 hb1 hc2 hlk2']
                    have hpred : (!regionFiltered r &&
                        decide (r.binaryId ∈ mapKeys binMap1)) = true := by
                      rw [hb1, decide_eq_true hKbin]; rfl
                    rw [List.filter_cons, hpred] at i3
                    simp only [if_true] at i3
                    have hrmem : r ∈ acc2.old_regions := i3.mem_iff.mpr (List.mem_cons_self _ _)
                    refine ih _ _ hfin ?_ ?_ ?_ ?_ ?_
                    · rw [attachRegion_keys, attachRegion_keys, mapKeys_append, mapKeys_append]
                      simp only [i1]
                      rfl
                    · rw [attachRegion_old_binary_map, attachRegion_keys, mapKeys_append]
                      show eraseKey acc2.old_binary_map r.binaryId = _
                      rw [i2, eraseKey_filter binMap1 _ _ hnd]
                      rfl
                    · rw [attachRegion_old_regions]
                      show (acc2.old_regions.erase r).Perm _
                      have := i3.erase r
                      rwa [List.erase_cons_head] at this
                    · refine allOldStaging_attach _ r r.binaryId ?_ hrmem
                      exact allOldStaging_append_old acc2.new_binary_map r.binaryId
                        r.name binary2 i4
                    · rw [attachRegion_tried, attachRegion_tried]
                      show acc2.tried_to_load =
                        (acc1.tried_to_load ++ [r.binaryId]).filter
                          (fun i => !decide (i ∈ mapKeys binMap1))
                      rw [List.filter_append, i5]
                      have : [r.binaryId].filter (fun i => !decide (i ∈ mapKeys binMap1)) = [] := by
                        simp [hKbin]
                      rw [this, List.append_nil]

/-! ### C5: reloading twice with the same regions gives an empty delta -/

/-- **C5.** Passing the same (duplicate-free) region list to `reload`
twice consecutively with the same loader callback produces a second
delta in which `binaries_mapped`, `binaries_unmapped`, `regions_mapped`
and `regions_unmapped` are all empty. -/
theorem reload_twice_empty_delta {FD : Type} (ext : Externals FD)
    (try_load : Region → LoadHandle → LoadHandle) (s : ASState FD)
    (rs : List Region) (hnodup : rs.Nodup) :
    (reload ext try_load (reload ext try_load s rs).state rs).reloaded.binaries_mapped = [] ∧
    (reload ext try_load (reload ext try_load s rs).state rs).reloaded.binaries_unmapped = [] ∧
    (reload ext try_load (reload ext try_load s rs).state rs).reloaded.regions_mapped = [] ∧
    (reload ext try_load (reload ext try_load s rs).state rs).reloaded.regions_unmapped = [] := by
  -- the first pass and its promotion
  set acc1F := rs.foldl (processRegion try_load) (initialReloadAcc s) with hacc1F
  set promoted := acc1F.new_binary_map.foldl (promoteStep ext)
    (⟨[], [], [], []⟩ : PromoteState FD) with hpromoted
  have hbK : mapKeys promoted.binary_map = mapKeys acc1F.new_binary_map := by
    have := (promote_fold_spec ext acc1F.new_binary_map
      (⟨[], [], [], []⟩ : PromoteState FD)).2.2.2
    simpa [mapKeys] using this
  have hnd_keys : (mapKeys promoted.binary_map).Nodup := by
    rw [hbK]
    exact foldl_keys_nodup try_load rs (initialReloadAcc s) (by simp [initialReloadAcc, mapKeys])
  -- the old-region set of the second pass is exactly the admitted regions
  have hmem_regions : ((rangeMapFromVec promoted.new_regions).map
      (fun e => e.2.memory_region)).Perm
      (rs.filter (fun q => !regionFiltered q &&
        decide (q.binaryId ∈ mapKeys promoted.binary_map))) := by
    refine ((rangeMapFromVec_perm promoted.new_regions).map _).trans ?_
    have hmap : promoted.new_regions.map (fun e => e.2.memory_region) =
        (stagedRegionPairs acc1F.new_binary_map).map Prod.fst := by
      have := (promote_fold_spec ext acc1F.new_binary_map
        (⟨[], [], [], []⟩ : PromoteState FD)).2.1
      simpa using this
    rw [hmap]
    have := foldl_pairs_perm try_load rs (initialReloadAcc s)
    rw [← hacc1F] at this
    simp only [stagedRegionPairs, initialReloadAcc] at this
    rw [hbK]
    simpa [stagedRegionPairs] using this
  have hfilter_nodup : (rs.filter (fun q => !regionFiltered q &&
      decide (q.binaryId ∈ mapKeys promoted.binary_map))).Nodup := hnodup.filter _
  have hmapped_nodup : ((rangeMapFromVec promoted.new_regions).map
      (fun e => e.2.memory_region)).Nodup := hmem_regions.nodup_iff.mpr hfilter_nodup
  have hold_regions : (((rangeMapFromVec promoted.new_regions).map
      (fun e => e.2.memory_region)).foldl setInsert []) =
      (rangeMapFromVec promoted.new_regions).map (fun e => e.2.memory_region) := by
    rw [foldl_setInsert_of_nodup _ [] hmapped_nodup (by simp)]
    simp
  -- apply the coupling
  have hcoupling := reload_coupling try_load promoted.binary_map hnd_keys rs
    (initialReloadAcc s)
    (initialReloadAcc (reload ext try_load s rs).state)
    hbK
    (by simp [initialReloadAcc, mapKeys])
    (by
      show (reload ext try_load s rs).state.binary_map = _
      simp only [reload]
      rw [← hacc1F, ← hpromoted]
      have : ∀ e ∈ promoted.binary_map,
          (fun (e : BinaryId × Binary FD) => !decide (e.1 ∈ mapKeys
            (initialReloadAcc s).new_binary_map)) e = true := by
        intro e _
        simp [initialReloadAcc, mapKeys]
      rw [List.filter_congr (by intro x hx; simp [initialReloadAcc, mapKeys] : ∀ x ∈ promoted.binary_map,
        (!decide (x.1 ∈ mapKeys (initialReloadAcc s).new_binary_map)) = true)]
      simp)
    (by
      show ((reload ext try_load s rs).state.regions.map
        (fun e => e.2.memory_region)).foldl setInsert [] |>.Perm _
      simp only [reload]
      rw [← hacc1F, ← hpromoted]
      rw [hold_regions]
      exact hmem_regions)
    (by intro e he; simp [initialReloadAcc] at he)
    (by simp [initialReloadAcc])
  obtain ⟨c1, c2, c3⟩ := hcoupling
  -- the second pass drains everything, so the delta is empty
  set acc2F := rs.foldl (processRegion try_load)
    (initialReloadAcc (reload ext try_load s rs).state) with hacc2F
  have hold_empty : acc2F.old_binary_map = [] := by
    rw [c1, List.filter_eq_nil_iff]
    intro e he
    have hmem : e.1 ∈ mapKeys acc1F.new_binary_map := by
      rw [← hbK]
      exact List.mem_map_of_mem Prod.fst he
    simp [hmem]
  have hflags : ∀ q ∈ stagedRegionPairs acc2F.new_binary_map, q.2 = false := by
    intro q hq
    simp only [stagedRegionPairs, List.mem_flatMap] at hq
    obtain ⟨e, he, hq'⟩ := hq
    exact (c3 e he).2 q hq'
  have hallold : ∀ e ∈ acc2F.new_binary_map, e.2.is_old = true := fun e he => (c3 e he).1
  obtain ⟨hp1, hp2, hp3, hp4⟩ := promote_fold_spec ext acc2F.new_binary_map
    (⟨[], [], [], []⟩ : PromoteState FD)
  refine ⟨?_, ?_, ?_, ?_⟩
  · show (acc2F.new_binary_map.foldl (promoteStep ext)
      (⟨[], [], [], []⟩ : PromoteState FD)).binaries_mapped = []
    rw [hp3, List.nil_append, List.map_eq_nil_iff, List.filter_eq_nil_iff]
    intro e he
    simp [hallold e he]
  · show acc2F.old_binary_map.map (fun e => (e.1.to_inode, e.2.name)) = []
    rw [hold_empty]
    rfl
  · show (acc2F.new_binary_map.foldl (promoteStep ext)
      (⟨[], [], [], []⟩ : PromoteState FD)).regions_mapped = []
    rw [hp1, List.nil_append, List.map_eq_nil_iff, List.filter_eq_nil_iff]
    intro q hq
    simp [hflags q hq]
  · show acc2F.old_regions.map (fun r => (r.start, r.«end»)) = []
    rw [c2]
    rfl

/-- Witness for C5: the first two steps of the source's `test_reload`
scenario — reloading the same two regions twice leaves the second delta
completely empty. -/
theorem reload_twice_empty_delta_witness :
    (reload testExternals testCallback
        (reload testExternals testCallback emptyAddressSpace
          [testRegion 0x1000 1 "file_1", testRegion 0x2000 2 "file_2"]).state
        [testRegion 0x1000 1 "file_1",
          testRegion 0x2000 2 "file_2"]).reloaded.binaries_mapped = [] ∧
    (reload testExternals testCallback
        (reload testExternals testCallback emptyAddressSpace
          [testRegion 0x1000 1 "file_1", testRegion 0x2000 2 "file_2"]).state
        [testRegion 0x1000 1 "file_1",
          testRegion 0x2000 2 "file_2"]).reloaded.binaries_unmapped = [] ∧
    (reload testExternals testCallback
        (reload testExternals testCallback emptyAddressSpace
          [testRegion 0x1000 1 "file_1", testRegion 0x2000 2 "file_2"]).state
        [testRegion 0x1000 1 "file_1",
          testRegion 0x2000 2 "file_2"]).reloaded.regions_mapped = [] ∧
    (reload testExternals testCallback
        (reload testExternals testCallback emptyAddressSpace
          [testRegion 0x1000 1 "file_1", testRegion 0x2000 2 "file_2"]).state
        [testRegion 0x1000 1 "file_1",
          testRegion 0x2000 2 "file_2"]).reloaded.regions_unmapped = [] :=
  reload_twice_empty_delta testExternals testCallback emptyAddressSpace
    [testRegion 0x1000 1 "file_1", testRegion 0x2000 2 "file_2"] (by decide)

/-! ### C7: the unwind driver -/

theorem unwindLoop_ne_nil {FD S : Type} (curA : S → Nat) (curI : S → Option Nat)
    (step : Memory FD → S → Option S) (memory : Memory FD) (fuel : Nat) (u : S) :
    unwindLoop curA curI step memory fuel u ≠ [] := by
  cases fuel <;> simp [unwindLoop]

theorem unwindLoop_head {FD S : Type} (curA : S → Nat) (curI : S → Option Nat)
    (step : Memory FD → S → Option S) (memory : Memory FD) (fuel : Nat) (u : S) :
    (unwindLoop curA curI step memory fuel u).head? =
      some ⟨curA u, curI u⟩ := by
  cases fuel <;> rfl

theorem unwindLoop_get {FD S : Type} (curA : S → Nat) (curI : S → Option Nat)
    (step : Memory FD → S → Option S) (memory : Memory FD) :
    ∀ (fuel : Nat) (u : S) (i : Nat),
      i < (unwindLoop curA curI step memory fuel u).length →
      (unwindLoop curA curI step memory fuel u).get? i =
        (ctxIterate step memory i u).map
          (fun v => (⟨curA v, curI v⟩ : UserFrame)) := by
  intro fuel
  induction fuel with
  | zero =>
      intro u i hi
      have hlen : (unwindLoop curA curI step memory 0 u).length = 1 := rfl
      rw [hlen] at hi
      have hi0 : i = 0 := by omega
      subst hi0
      rfl
  | succ n ih =>
      intro u i hi
      cases i with
      | zero => rfl
      | succ j =>
          cases hstep : step memory u with
          | none =>
              exfalso
              simp [unwindLoop, hstep] at hi
          | some u2 =>
              have hl : unwindLoop curA curI step memory (n + 1) u =
                  ⟨curA u, curI u⟩ :: unwindLoop curA curI step memory n u2 := by
                simp [unwindLoop, hstep]
              rw [hl] at hi ⊢
              have hit : ctxIterate step memory (j + 1) u =
                  ctxIterate step memory j u2 := by
                simp [ctxIterate, hstep]
              rw [List.get?_cons_succ, hit]
              exact ih u2 j (by simpa using hi)

/-- **C7.** `unwind` discards the previous contents of `out` (its
result does not depend on them); when the architecture reports no stack
pointer it returns with the output empty and the address space
untouched; when a stack pointer is available, the output is never
empty, its first element's address is the instruction pointer of the
initial register state, and the `i`-th element is the frame of the
`i`-th state of the unwind iteration — frames appear in
callee-to-caller order, innermost first. -/
theorem unwind_spec {FD S : Type}
    (get_stack_pointer : DwarfRegs → Option Nat)
    (get_instruction_pointer : DwarfRegs → Option Nat)
    (ctx_start : DwarfRegs → S)
    (current_address : S → Nat)
    (current_initial_address : S → Option Nat)
    (ctx_unwind : Memory FD → S → Option S)
    (fuel : Nat) (s : ASState FD) (dwarf_regs : DwarfRegs) (stack : List Nat)
    (output : List UserFrame)
    (hip : get_instruction_pointer dwarf_regs =
      some (current_address (ctx_start dwarf_regs))) :
    (∀ output2, unwind get_stack_pointer ctx_start current_address
        current_initial_address ctx_unwind fuel s dwarf_regs stack output =
      unwind get_stack_pointer ctx_start current_address
        current_initial_address ctx_unwind fuel s dwarf_regs stack output2) ∧
    (get_stack_pointer dwarf_regs = none →
      unwind get_stack_pointer ctx_start current_address
        current_initial_address ctx_unwind fuel s dwarf_regs stack output = (s, [])) ∧
    (∀ stack_address, get_stack_pointer dwarf_regs = some stack_address →
      (unwind get_stack_pointer ctx_start current_address
          current_initial_address ctx_unwind fuel s dwarf_regs stack output).2 ≠ [] ∧
      ((unwind get_stack_pointer ctx_start current_address
          current_initial_address ctx_unwind fuel s dwarf_regs stack output).2.head?.map
            UserFrame.address) = get_instruction_pointer dwarf_regs ∧
      (∀ i, i < (unwind get_stack_pointer ctx_start current_address
          current_initial_address ctx_unwind fuel s dwarf_regs stack output).2.length →
        (unwind get_stack_pointer ctx_start current_address
            current_initial_address ctx_unwind fuel s dwarf_regs stack output).2.get? i =
          (ctxIterate ctx_unwind ⟨s.regions, stack_address, stack⟩ i
              (ctx_start dwarf_regs)).map
            (fun v => ⟨current_address v, current_initial_address v⟩))) := by
  refine ⟨fun output2 => rfl, fun h => by simp [unwind, h], fun stack_address h => ?_⟩
  have hu : unwind get_stack_pointer ctx_start current_address
      current_initial_address ctx_unwind fuel s dwarf_regs stack output =
      ({ s with ctx_panic_flag := s.panic_on_partial_backtrace },
        unwindLoop current_address current_initial_address ctx_unwind
          ⟨s.regions, stack_address, stack⟩ fuel (ctx_start dwarf_regs)) := by
    simp [unwind, h]
  rw [hu]
  refine ⟨unwindLoop_ne_nil _ _ _ _ fuel _, ?_, ?_⟩
  · rw [unwindLoop_head, hip]
    rfl
  · intro i hi
    exact unwindLoop_get current_address current_initial_address ctx_unwind
      ⟨s.regions, stack_address, stack⟩ fuel (ctx_start dwarf_regs) i hi

/-- Witness for C7: a two-state machine over `S = Nat` that steps once
and stops; with a known stack pointer the output is the two frames in
innermost-first order, and with it unknown the output is empty and the
address space untouched. -/
theorem unwind_spec_witness :
    (unwind (fun regs => regs.regs.lookup 7) (fun _ => 0) (fun u => 0x4000 + u)
        (fun _ => none) (fun _ u => if u = 0 then some 1 else none) 8
        emptyAddressSpace ⟨[(7, 0x7000), (16, 0x4000)]⟩ [0xAA] [] ).2 ≠ [] ∧
    ((unwind (fun regs => regs.regs.lookup 7) (fun _ => 0) (fun u => 0x4000 + u)
        (fun _ => none) (fun _ u => if u = 0 then some 1 else none) 8
        emptyAddressSpace ⟨[(7, 0x7000), (16, 0x4000)]⟩ [0xAA] [] ).2.head?.map
          UserFrame.address) = (⟨[(7, 0x7000), (16, 0x4000)]⟩ : DwarfRegs).regs.lookup 16 ∧
    unwind (fun regs => regs.regs.lookup 7) (fun _ => 0) (fun u => 0x4000 + u)
        (fun _ => none) (fun _ u => if u = 0 then some 1 else none) 8
        emptyAddressSpace ⟨[(16, 0x4000)]⟩ [0xAA] [] = (emptyAddressSpace, []) := by
  have h := unwind_spec (S := Nat) (fun regs => regs.regs.lookup 7)
    (fun regs => regs.regs.lookup 16) (fun _ => 0) (fun u => 0x4000 + u) (fun _ => none)
    (fun _ u => if u = 0 then some 1 else none) 8 emptyAddressSpace
    ⟨[(7, 0x7000), (16, 0x4000)]⟩ [0xAA] [] (by decide)
  obtain ⟨hne, hhead, _⟩ := h.2.2 0x7000 (by decide)
  have h2 := unwind_spec (S := Nat) (fun regs => regs.regs.lookup 7)
    (fun regs => regs.regs.lookup 16) (fun _ => 0) (fun u => 0x4000 + u) (fun _ => none)
    (fun _ u => if u = 0 then some 1 else none) 8 emptyAddressSpace
    ⟨[(16, 0x4000)]⟩ [0xAA] [] (by decide)
  exact ⟨hne, hhead, h2.2.1 (by decide)⟩

/-! ### C10: the symbolication callback is invoked exactly once -/

theorem scanSymbols_eq_findSome (tables : List Symbols) (relative_address : Nat) :
    scanSymbols tables relative_address =
      (tables.findSome? (fun symbols => symbols.get_symbol relative_address)).map
        (fun x => x.2) := by
  induction tables with
  | nil => rfl
  | cons symbols rest ih =>
      cases hs : symbols.get_symbol relative_address with
      | none => simp [scanSymbols, List.findSome?_cons, hs, ih]
      | some hit => simp [scanSymbols, List.findSome?_cons, hs]

/-- **C10.** Both `Binary::decode_symbol_while` and
`AddressSpace::decode_symbol_while` invoke their visitor callback
exactly once per call — the result equals a single application of the
callback to the decoded frame, for *every* callback, so the callback's
boolean return value is ignored, and the invocation happens whether or
not any symbol table (or any region) matched, an unnamed frame being
passed on a total miss. -/
theorem decode_symbol_invokes_once {FD σ : Type} (ext : Externals FD) (s : ASState FD)
    (b : Binary FD) (address : Nat) (callback : σ → Frame → σ × Bool) (st : σ) :
    Binary.decode_symbol_while ext b address callback st =
      (callback st (decodedFrame ext b address)).1 ∧
    ASState.decode_symbol_while ext s address callback st =
      (callback st (asDecodedFrame ext s address)).1 := by
  have hbin : ∀ (b2 : Binary FD),
      Binary.decode_symbol_while ext b2 address callback st =
        (callback st (decodedFrame ext b2 address)).1 := by
    intro b2
    simp only [Binary.decode_symbol_while, decodedFrame, scanSymbols_eq_findSome]
    cases hf : b2.symbols.findSome?
        (fun symbols => symbols.get_symbol (translate_address b2.mappings address)) with
    | none => rfl
    | some hit =>
        obtain ⟨rng, sym⟩ := hit
        rfl
  refine ⟨hbin b, ?_⟩
  unfold ASState.decode_symbol_while asDecodedFrame
  cases hr : rangeGet s.regions address with
  | none => rfl
  | some entry => exact hbin entry.2.binary
